import Mathlib

/-!
# Verification of the room/mailbox/presence core of `src/backend/flask_app.py`

The file embeds the Flask + SQLite signaling server as pure Lean functions:

* `Json`, `dumps`, `loads` model the Python values carried in request bodies
  and the standard-library `json.dumps` / `json.loads` pair used by
  `send_signal` and `get_signals` (integers only; floats are outside the
  model, and strings range over Unicode scalar values).
* `DB` models the three SQLite tables; each route handler becomes a function
  from its inputs and the current `DB` to a result and the next `DB`.
  Timestamps (`CURRENT_TIMESTAMP`, `datetime('now')`) are a `now : Nat`
  argument, the 6-digit `random.randint` draw of `create_room` and the
  `uuid.uuid4().int % 10` draw of `send_signal` are explicit arguments.
* `ORDER BY created_at ASC` over a rowid table scan is modelled as a stable
  insertion sort (`orderByCreatedAt`) of the rows in insertion (= rowid)
  order.

The theorems at the end settle the frozen claims about the spec.
-/

/-- A JSON-equivalent Python value: the payloads and request-body fields the
server transports.  Python `None` (both an absent key and a JSON `null`) is
`Json.null`; numbers are modelled as integers (floats are out of scope). -/
inductive Json where
  | null : Json
  | bool : Bool → Json
  | num : Int → Json
  | str : String → Json
  | arr : List Json → Json
  | obj : List (String × Json) → Json
deriving Repr

/-- Tests `x is None` on a Python value decoded from JSON. -/
def isNull : Json → Bool
  | .null => true
  | _ => false

mutual

/-- Structural equality of Python JSON values (`==` on decoded values). -/
def jeq : Json → Json → Bool
  | .null, .null => true
  | .bool a, .bool b => a == b
  | .num a, .num b => a == b
  | .str a, .str b => a == b
  | .arr a, .arr b => jeqArr a b
  | .obj a, .obj b => jeqObj a b
  | _, _ => false

/-- Elementwise `jeq` on arrays. -/
def jeqArr : List Json → List Json → Bool
  | [], [] => true
  | x :: xs, y :: ys => jeq x y && jeqArr xs ys
  | _, _ => false

/-- Memberwise `jeq` on objects (key order included, as for association data). -/
def jeqObj : List (String × Json) → List (String × Json) → Bool
  | [], [] => true
  | (k1, v1) :: ms, (k2, v2) :: ns => k1 == k2 && jeq v1 v2 && jeqObj ms ns
  | _, _ => false

end

/-- Python truthiness of a decoded JSON value: `None`, `False`, `0`, `""`,
`[]` and `{}` are falsy.  Models `if not host_id:` style checks. -/
def jsonFalsy : Json → Bool
  | .null => true
  | .bool b => !b
  | .num n => n == 0
  | .str s => s == ""
  | .arr xs => xs.isEmpty
  | .obj ms => ms.isEmpty

/-- Models `data.get(k)` on a request body decoded from JSON: a missing key
yields Python `None`, and a JSON `null` value also decodes to `None`, so both
are `Json.null` here. -/
def pyGet (body : List (String × Json)) (k : String) : Json :=
  match body.find? (fun kv => kv.1 == k) with
  | some kv => kv.2
  | none => Json.null

/-- Rendering of a value inside an f-string (`f"host-{host_id}-{room_id}"`).
Only the string case is ever exercised by the claims; the composite cases
abbreviate Python's `str()` rendering. -/
def pyStr : Json → String
  | .null => "None"
  | .bool true => "True"
  | .bool false => "False"
  | .num n => toString n
  | .str s => s
  | .arr _ => "[...]"
  | .obj _ => "(dict)"

/-! ## The `json.dumps` serializer (default options: `ensure_ascii=True`,
separators `", "` and `": "`, as called by `send_signal`). -/

/-- The `\x7b` character. -/
def lbrace : Char := Char.ofNat 123

/-- The `\x7d` character. -/
def rbrace : Char := Char.ofNat 125

/-- Lower-case hexadecimal digit for `n < 16`. -/
def hexDig (n : Nat) : Char :=
  Char.ofNat (if n < 10 then 48 + n else 87 + n)

/-- A `\uXXXX` escape for a code unit `n < 0x10000`. -/
def uEsc (n : Nat) : List Char :=
  ['\\', 'u', hexDig (n / 4096 % 16), hexDig (n / 256 % 16),
   hexDig (n / 16 % 16), hexDig (n % 16)]

/-- How `json.dumps` (with `ensure_ascii=True`) writes one character of a
string: `"` and `\` get two-character escapes, the five named control
characters get their short escapes, other control characters and everything
non-ASCII become `\uXXXX` (a UTF-16 surrogate pair beyond `0xFFFF`), and
printable ASCII passes through. -/
def escChar (c : Char) : List Char :=
  if c = '"' then ['\\', '"']
  else if c = '\\' then ['\\', '\\']
  else if c = Char.ofNat 8 then ['\\', 'b']
  else if c = Char.ofNat 9 then ['\\', 't']
  else if c = Char.ofNat 10 then ['\\', 'n']
  else if c = Char.ofNat 12 then ['\\', 'f']
  else if c = Char.ofNat 13 then ['\\', 'r']
  else if c.toNat < 32 then uEsc c.toNat
  else if c.toNat < 127 then [c]
  else if c.toNat < 65536 then uEsc c.toNat
  else uEsc (55296 + (c.toNat - 65536) / 1024) ++ uEsc (56320 + (c.toNat - 65536) % 1024)

/-- Escape a whole string body. -/
def escStr : List Char → List Char
  | [] => []
  | c :: cs => escChar c ++ escStr cs

/-- A serialized string: quote, escaped body, quote. -/
def dumpStrL (s : String) : List Char :=
  '"' :: (escStr s.data ++ ['"'])

/-- Decimal digits of `n`, most significant first, prepended to `acc`. -/
def natDigsAux (n : Nat) (acc : List Char) : List Char :=
  if n < 10 then Char.ofNat (48 + n) :: acc
  else natDigsAux (n / 10) (Char.ofNat (48 + n % 10) :: acc)
termination_by n
decreasing_by omega

/-- Python's decimal rendering of an `int`. -/
def intDigs (i : Int) : List Char :=
  if i < 0 then '-' :: natDigsAux i.natAbs [] else natDigsAux i.natAbs []

mutual

/-- `json.dumps` of a value, as a character list. -/
def dumpL : Json → List Char
  | .num n => intDigs n
  | .str s => dumpStrL s
  | .bool b => if b then ['t', 'r', 'u', 'e'] else ['f', 'a', 'l', 's', 'e']
  | .null => ['n', 'u', 'l', 'l']
  | .arr xs => '[' :: (dumpArr xs ++ [']'])
  | .obj ms => lbrace :: (dumpObj ms ++ [rbrace])

/-- Array items joined by `", "` (the `json.dumps` default separator). -/
def dumpArr : List Json → List Char
  | [] => []
  | [x] => dumpL x
  | x :: y :: xs => dumpL x ++ ',' :: ' ' :: dumpArr (y :: xs)

/-- Object members, keys serialized as strings, joined by `", "` with `": "`
after each key. -/
def dumpObj : List (String × Json) → List Char
  | [] => []
  | [(k, v)] => dumpStrL k ++ ':' :: ' ' :: dumpL v
  | (k, v) :: m :: ms => dumpStrL k ++ ':' :: ' ' :: dumpL v ++ ',' :: ' ' :: dumpObj (m :: ms)

end

/-- `json.dumps`, producing the stored TEXT column value. -/
def dumps (v : Json) : String := String.mk (dumpL v)

/-! ## The `json.loads` parser, as called by `get_signals` on stored payloads. -/

/-- JSON whitespace. -/
def isWsCh (ch : Char) : Bool :=
  ch == ' ' || ch == '\t' || ch == '\n' || ch == '\r'

/-- Skip leading whitespace. -/
def wsSkip : List Char → List Char
  | [] => []
  | c :: cs => if isWsCh c then wsSkip cs else c :: cs

/-- Value of one hexadecimal digit (both cases accepted, as in Python). -/
def hexNib (c : Char) : Option Nat :=
  if 48 ≤ c.toNat && c.toNat ≤ 57 then some (c.toNat - 48)
  else if 97 ≤ c.toNat && c.toNat ≤ 102 then some (c.toNat - 87)
  else if 65 ≤ c.toNat && c.toNat ≤ 70 then some (c.toNat - 55)
  else none

/-- Value of a four-digit hexadecimal run. -/
def hexQuad (a b c d : Char) : Option Nat := do
  let va ← hexNib a
  let vb ← hexNib b
  let vc ← hexNib c
  let vd ← hexNib d
  return ((va * 16 + vb) * 16 + vc) * 16 + vd

/-- The single-character escapes `json.loads` accepts after a backslash. -/
def escSimple (e : Char) : Option Char :=
  if e = 'n' then some (Char.ofNat 10)
  else if e = 't' then some (Char.ofNat 9)
  else if e = 'r' then some (Char.ofNat 13)
  else if e = 'b' then some (Char.ofNat 8)
  else if e = 'f' then some (Char.ofNat 12)
  else if e = '"' then some '"'
  else if e = '\\' then some '\\'
  else if e = '/' then some '/'
  else none

/-- Decode the low half `\uXXXX` of a surrogate pair whose high half was
`hi`. -/
def unEscPair (hi : Nat) : List Char → Option (Char × List Char)
  | b1 :: b2 :: a :: b :: c :: d :: rest =>
    if b1 = '\\' then
      if b2 = 'u' then
        match hexQuad a b c d with
        | some m =>
          if 56320 ≤ m && m < 57344 then
            some (Char.ofNat (65536 + (hi - 55296) * 1024 + (m - 56320)), rest)
          else none
        | none => none
      else none
    else none
  | _ => none

/-- Decode a `\uXXXX` escape after `\u`: four hex digits, recombining a
UTF-16 surrogate pair (a second `\uXXXX` follows a high surrogate); a lone
surrogate is rejected (strings are modelled as Unicode scalar values). -/
def unEscU : List Char → Option (Char × List Char)
  | a :: b :: c :: d :: rest =>
    match hexQuad a b c d with
    | none => none
    | some n =>
      if 55296 ≤ n && n < 56320 then unEscPair n rest
      else if 56320 ≤ n && n < 57344 then none
      else some (Char.ofNat n, rest)
  | _ => none

/-- Decode one escape sequence after the backslash. -/
def unEsc : List Char → Option (Char × List Char)
  | [] => none
  | e :: rest =>
    if e = 'u' then unEscU rest
    else
      match escSimple e with
      | some ch => some (ch, rest)
      | none => none

/-- Parse a string body after the opening quote: literal characters (control
characters rejected, as in strict mode) and backslash escapes via `unEsc`.
The fuel only bounds the loop; every step consumes at least one character,
so the caller's `length + 1` never runs out. -/
def strBody (fuel : Nat) (acc : List Char) (cs : List Char) :
    Option (String × List Char) :=
  match fuel with
  | 0 => none
  | fuel + 1 =>
    match cs with
    | [] => none
    | c :: rest =>
      if c = '"' then some (String.mk acc.reverse, rest)
      else if c = '\\' then
        match unEsc rest with
        | some p => strBody fuel (p.1 :: acc) p.2
        | none => none
      else if c.toNat < 32 then none
      else strBody fuel (c :: acc) rest

/-- Split a leading run of decimal digits from the input. -/
def digSpan : List Char → List Char × List Char
  | [] => ([], [])
  | c :: cs =>
    if 48 ≤ c.toNat && c.toNat ≤ 57 then
      let p := digSpan cs
      (c :: p.1, p.2)
    else ([], c :: cs)

/-- Numeric value of a digit run. -/
def digsVal (ds : List Char) : Nat :=
  ds.foldl (fun a c => a * 10 + (c.toNat - 48)) 0

/-- True when the remainder cannot continue a number into a float
(`.`, `e`, `E`); floats are outside the model, so such inputs fail. -/
def numStop : List Char → Bool
  | [] => true
  | c :: _ => !(c == '.' || c == 'e' || c == 'E')

/-- Parse a Python `int` literal: optional minus sign, then digits. -/
def intParse (cs : List Char) : Option (Int × List Char) :=
  match cs with
  | [] => none
  | c :: rest =>
    if c = '-' then
      let p := digSpan rest
      if p.1.isEmpty then none
      else if numStop p.2 then some (-(digsVal p.1 : Int), p.2) else none
    else
      let p := digSpan (c :: rest)
      if p.1.isEmpty then none
      else if numStop p.2 then some ((digsVal p.1 : Int), p.2) else none

mutual

/-- Parse one JSON value, dispatching on the first non-blank character, as
Python's scanner does (fuel-recursive; `loads` supplies ample fuel). -/
def jsonVal (fuel : Nat) (cs : List Char) : Option (Json × List Char) :=
  match fuel with
  | 0 => none
  | fuel + 1 =>
    match wsSkip cs with
    | [] => none
    | c :: rest =>
      if c = 'n' then
        match rest with
        | 'u' :: 'l' :: 'l' :: r => some (.null, r)
        | _ => none
      else if c = 't' then
        match rest with
        | 'r' :: 'u' :: 'e' :: r => some (.bool true, r)
        | _ => none
      else if c = 'f' then
        match rest with
        | 'a' :: 'l' :: 's' :: 'e' :: r => some (.bool false, r)
        | _ => none
      else if c = '"' then
        match strBody (rest.length + 1) [] rest with
        | some (s, rest2) => some (.str s, rest2)
        | none => none
      else if c = '[' then
        match wsSkip rest with
        | [] => none
        | c2 :: cs2 =>
          if c2 = ']' then some (.arr [], cs2)
          else
            match jsonItems fuel (c2 :: cs2) with
            | some (xs, rest2) => some (.arr xs, rest2)
            | none => none
      else if c = lbrace then
        match wsSkip rest with
        | [] => none
        | c2 :: cs2 =>
          if c2 = rbrace then some (.obj [], cs2)
          else
            match jsonMembers fuel (c2 :: cs2) with
            | some (ms, rest2) => some (.obj ms, rest2)
            | none => none
      else
        match intParse (c :: rest) with
        | some (n, rest2) => some (.num n, rest2)
        | none => none

/-- Parse one-or-more comma-separated array items up to the closing bracket
(whitespace after a comma skipped, as in Python's decoder). -/
def jsonItems (fuel : Nat) (cs : List Char) : Option (List Json × List Char) :=
  match fuel with
  | 0 => none
  | fuel + 1 =>
    match jsonVal fuel cs with
    | none => none
    | some (v, rest) =>
      match wsSkip rest with
      | [] => none
      | c :: rest2 =>
        if c = ',' then
          match jsonItems fuel (wsSkip rest2) with
          | some (vs, rest3) => some (v :: vs, rest3)
          | none => none
        else if c = ']' then some ([v], rest2)
        else none

/-- Parse one-or-more comma-separated object members up to the closing brace
(whitespace around `:` and after `,` skipped, as in Python's decoder).
Python rebuilds a `dict`, collapsing duplicate keys; `json.dumps` output never
has duplicates, so the association list as parsed is the faithful image. -/
def jsonMembers (fuel : Nat) (cs : List Char) :
    Option (List (String × Json) × List Char) :=
  match fuel with
  | 0 => none
  | fuel + 1 =>
    match wsSkip cs with
    | [] => none
    | c :: rest =>
      if c = '"' then
        match strBody (rest.length + 1) [] rest with
        | none => none
        | some (k, rest1) =>
          match wsSkip rest1 with
          | [] => none
          | c1 :: rest2 =>
            if c1 = ':' then
              match jsonVal fuel (wsSkip rest2) with
              | none => none
              | some (v, rest3) =>
                match wsSkip rest3 with
                | [] => none
                | c2 :: rest4 =>
                  if c2 = ',' then
                    match jsonMembers fuel (wsSkip rest4) with
                    | some (ms, rest5) => some ((k, v) :: ms, rest5)
                    | none => none
                  else if c2 = rbrace then some ([(k, v)], rest4)
                  else none
            else none
      else none

end

/-- `json.loads`: decode one value and require only whitespace after it.
Inputs Python would decode to floats, or strings with lone surrogates, are
outside the model and yield `none`. -/
def loads (s : String) : Option Json :=
  match jsonVal (s.data.length + 1) s.data with
  | some (v, rest) => if (wsSkip rest).isEmpty then some v else none
  | none => none

/-! ## The SQLite data model

`rooms`, `participants` and `signals` are lists of rows in insertion (rowid)
order; `nextSignalId` is the `signals` AUTOINCREMENT counter (never reused).
Request-body values (`device_id`, `from`, `to`, `type`) are stored as the
Python values bound into the SQL, so those columns hold `Json`. -/

/-- A row of the `rooms` table. -/
structure RoomRow where
  room_id : String
  host_id : Json
  created_at : Nat
  status : String

/-- A row of the `participants` table (primary key `(device_id, room_id)`). -/
structure ParticipantRow where
  device_id : Json
  room_id : String
  role : String
  last_seen : Nat

/-- A row of the `signals` table. -/
structure SignalRow where
  id : Nat
  room_id : String
  from_device : Json
  to_device : Json
  type : Json
  payload : String
  created_at : Nat

/-- The whole store. -/
structure DB where
  rooms : List RoomRow
  participants : List ParticipantRow
  signals : List SignalRow
  nextSignalId : Nat

/-- The store of a freshly initialized database file. -/
def initDB : DB := ⟨[], [], [], 1⟩

/-- `clean_stale_data`: drop signals older than 10 minutes and participants
not seen for an hour (SQLite `datetime` arithmetic, in seconds). -/
def clean_stale_data (now : Nat) (db : DB) : DB :=
  { db with
    signals := db.signals.filter (fun s => !(s.created_at < now - 600)),
    participants := db.participants.filter (fun p => !(p.last_seen < now - 3600)) }

/-- Result of `POST /rooms`. -/
inductive CreateResult where
  | ok (room_id : String) (token : String)
  | missingDevice
  | dbError
deriving Repr, DecidableEq

/-- `create_room`: validate `device_id`, insert the room (status `open`) and
the host participant.  `genId` is the `random.randint` 6-digit draw; a
primary-key conflict on either insert raises, the handler answers 500 and the
uncommitted transaction is discarded. -/
def create_room (genId : String) (body : List (String × Json)) (now : Nat)
    (db : DB) : CreateResult × DB :=
  let host := pyGet body "device_id"
  if jsonFalsy host then (.missingDevice, db)
  else if db.rooms.any (fun r => r.room_id == genId) then (.dbError, db)
  else if db.participants.any (fun p => jeq p.device_id host && p.room_id == genId) then
    (.dbError, db)
  else
    (.ok genId ("host-" ++ pyStr host ++ "-" ++ genId),
     { db with
       rooms := db.rooms ++ [⟨genId, host, now, "open"⟩],
       participants := db.participants ++ [⟨host, genId, "host", now⟩] })

/-- Result of `POST /rooms/<id>/join`. -/
inductive JoinResult where
  | ok (token : String) (host_id : Json)
  | missingDevice
  | notFound
deriving Repr

/-- `join_room`: require an OPEN room, then `INSERT OR REPLACE` the
participant with role `peer` and `last_seen = now` (SQLite REPLACE deletes
the conflicting `(device_id, room_id)` row and appends the new one). -/
def join_room (room_id : String) (body : List (String × Json)) (now : Nat)
    (db : DB) : JoinResult × DB :=
  let dev := pyGet body "device_id"
  if jsonFalsy dev then (.missingDevice, db)
  else
    match db.rooms.find? (fun r => r.room_id == room_id && r.status == "open") with
    | none => (.notFound, db)
    | some room =>
      (.ok ("peer-" ++ pyStr dev ++ "-" ++ room_id) room.host_id,
       { db with
         participants :=
           db.participants.filter
             (fun p => !(jeq p.device_id dev && p.room_id == room_id))
           ++ [⟨dev, room_id, "peer", now⟩] })

/-- Result of `POST /rooms/<id>/signal`. -/
inductive SendResult where
  | ok
  | missingFields
deriving Repr, DecidableEq

/-- `send_signal`: reject if any of `from`, `to`, `type`, `payload` is Python
`None`, else append one signal row with the payload serialized by
`json.dumps`; afterwards, when the `uuid4` draw is divisible by 10, run the
lazy `clean_stale_data` sweep.  The room is never consulted. -/
def send_signal (room_id : String) (body : List (String × Json)) (now : Nat)
    (draw : Nat) (db : DB) : SendResult × DB :=
  let fromD := pyGet body "from"
  let toD := pyGet body "to"
  let ty := pyGet body "type"
  let payload := pyGet body "payload"
  if isNull fromD || isNull toD || isNull ty || isNull payload then
    (.missingFields, db)
  else
    let db1 : DB :=
      { db with
        signals := db.signals ++
          [⟨db.nextSignalId, room_id, fromD, toD, ty, dumps payload, now⟩],
        nextSignalId := db.nextSignalId + 1 }
    (.ok, if draw % 10 == 0 then clean_stale_data now db1 else db1)

/-- One delivered message, as `get_signals` returns it: `from`, `type`, and
the payload deserialized by `json.loads` (a stored payload `json.loads` would
reject is modelled as `none`; `send_signal` only ever stores `json.dumps`
output, which always decodes). -/
structure Msg where
  from_device : Json
  type : Json
  payload : Option Json

/-- Result of `GET /rooms/<id>/signal`. -/
inductive FetchResult where
  | ok (msgs : List Msg)
  | missingDevice

/-- The `WHERE room_id = ? AND to_device = ?` predicate of `get_signals`,
with the query-string `device_id` compared as a string value. -/
def matchesTo (room_id d : String) (s : SignalRow) : Bool :=
  s.room_id == room_id && jeq s.to_device (Json.str d)

/-- Stable insertion of a row after every row with `created_at` at most its
own: the position SQLite's sorter gives a later-scanned row among ties. -/
def insertCA (r : SignalRow) : List SignalRow → List SignalRow
  | [] => [r]
  | s :: rest =>
    if s.created_at ≤ r.created_at then s :: insertCA r rest
    else r :: s :: rest

/-- `ORDER BY created_at ASC` over the rowid scan: a stable sort of the rows
in insertion order. -/
def orderByCreatedAt (l : List SignalRow) : List SignalRow :=
  l.foldl (fun acc r => insertCA r acc) []

/-- `get_signals`: select the rows addressed to `device_id` in the room in
`created_at` order, build the messages, then delete exactly the selected
rows by their `id`s (skipping the DELETE when nothing was selected). -/
def get_signals (room_id : String) (device_id : Option String) (db : DB) :
    FetchResult × DB :=
  match device_id with
  | none => (.missingDevice, db)
  | some d =>
    if d == "" then (.missingDevice, db)
    else
      let rows := orderByCreatedAt (db.signals.filter (matchesTo room_id d))
      let msgs := rows.map (fun s => Msg.mk s.from_device s.type (loads s.payload))
      let ids := rows.map (fun s => s.id)
      let signals' :=
        if ids.isEmpty then db.signals
        else db.signals.filter (fun s => !(ids.contains s.id))
      (.ok msgs, { db with signals := signals' })

/-- Result of `POST /rooms/<id>/heartbeat`. -/
inductive HeartbeatResult where
  | alive
  | missingDevice
deriving Repr, DecidableEq

/-- `heartbeat`: an unconditional UPDATE of `last_seen` for the matching
participant row; zero rows affected still answers `{"status": "alive"}`. -/
def heartbeat (room_id : String) (body : List (String × Json)) (now : Nat)
    (db : DB) : HeartbeatResult × DB :=
  let dev := pyGet body "device_id"
  if jsonFalsy dev then (.missingDevice, db)
  else
    (.alive,
     { db with
       participants := db.participants.map (fun p =>
         if p.room_id == room_id && jeq p.device_id dev then
           { p with last_seen := now }
         else p) })

/-- One entry of the `GET /rooms/<id>/participants` response. -/
structure PartView where
  device_id : Json
  last_seen : Nat
  role : String

/-- `list_participants`: the participants of the room seen within the last
30 seconds (`last_seen > datetime('now', '-30 seconds')`). -/
def list_participants (room_id : String) (now : Nat) (db : DB) : List PartView :=
  (db.participants.filter (fun p => p.room_id == room_id && now - 30 < p.last_seen)).map
    (fun p => PartView.mk p.device_id p.last_seen p.role)

/-- Result of `POST /rooms/<id>/close` (always a 200 `closed` ack). -/
inductive CloseResult where
  | closedAck
deriving Repr, DecidableEq

/-- `close_room`: set the room's status to `closed` (zero rows affected when
the room does not exist), then delete the room's participants and signals. -/
def close_room (room_id : String) (db : DB) : CloseResult × DB :=
  (.closedAck,
   { db with
     rooms := db.rooms.map (fun r =>
       if r.room_id == room_id then { r with status := "closed" } else r),
     participants := db.participants.filter (fun p => !(p.room_id == room_id)),
     signals := db.signals.filter (fun s => !(s.room_id == room_id)) })

/-! ## Trace helpers -/

/-- One `Send` request addressed to a fixed recipient: the other body fields,
the request's timestamp, and the `uuid4` cleanup draw. -/
structure SendReq where
  fromD : Json
  ty : Json
  payload : Json
  now : Nat
  draw : Nat

/-- The JSON body of a `SendReq` addressed to device `D`. -/
def sendBody (D : String) (q : SendReq) : List (String × Json) :=
  [("from", q.fromD), ("to", Json.str D), ("type", q.ty), ("payload", q.payload)]

/-- A `SendReq` whose three value fields are not `None` (so `send_signal`
accepts it). -/
def okReq (q : SendReq) : Bool :=
  !(isNull q.fromD) && !(isNull q.ty) && !(isNull q.payload)

/-- Run a sequence of sends to device `D` in room `R`. -/
def runSends (R D : String) (db : DB) : List SendReq → DB
  | [] => db
  | q :: qs => runSends R D (send_signal R (sendBody D q) q.now q.draw db).2 qs

/-- The signal row a `SendReq` inserts when it is given id `i`. -/
def sentRow (R D : String) (i : Nat) (q : SendReq) : SignalRow :=
  ⟨i, R, q.fromD, Json.str D, q.ty, dumps q.payload, q.now⟩

/-- The rows a send sequence inserts, with ids counting up from `base`. -/
def sentRows (R D : String) (base : Nat) : List SendReq → List SignalRow
  | [] => []
  | q :: qs => sentRow R D base q :: sentRows R D (base + 1) qs

/-- Iterate `get_signals` for the same room and device, collecting results. -/
def iterFetch (R : String) (d : Option String) : Nat → DB → List FetchResult × DB
  | 0, db => ([], db)
  | k + 1, db =>
    let p := get_signals R d db
    let rest := iterFetch R d k p.2
    (p.1 :: rest.1, rest.2)

/-- The rows `get_signals` selects (and returns, through `viewMsg`). -/
def rowsFor (room d : String) (db : DB) : List SignalRow :=
  orderByCreatedAt (db.signals.filter (matchesTo room d))

/-- The message built from one selected row. -/
def viewMsg (s : SignalRow) : Msg :=
  Msg.mk s.from_device s.type (loads s.payload)

/-- The store with exactly the `(room, d)` mailbox rows removed. -/
def dropDelivered (room d : String) (db : DB) : DB :=
  { db with signals := db.signals.filter (fun s => !(matchesTo room d s)) }

/-- Ids of the `signals` rows are strictly increasing (rowid order) and below
the AUTOINCREMENT counter.  This holds in every reachable store and is what
makes deletion by id delete exactly the selected rows. -/
def SignalsWF (db : DB) : Prop :=
  db.signals.Pairwise (fun a b => a.id < b.id) ∧
    ∀ s ∈ db.signals, s.id < db.nextSignalId

/-- The deterministic total order `ORDER BY created_at ASC` yields on a rowid
scan: by timestamp, ties broken by insertion sequence. -/
def lexLT (a b : SignalRow) : Prop :=
  a.created_at < b.created_at ∨ (a.created_at = b.created_at ∧ a.id < b.id)

/-! ## The stable sort -/

theorem insertCA_perm (r : SignalRow) (l : List SignalRow) :
    (insertCA r l).Perm (r :: l) := by
  induction l with
  | nil => exact List.Perm.refl _
  | cons s rest ih =>
    unfold insertCA
    split
    · exact (ih.cons s).trans (List.Perm.swap r s rest)
    · exact List.Perm.refl _

theorem foldl_insertCA_perm (l : List SignalRow) :
    ∀ acc : List SignalRow, (l.foldl (fun acc r => insertCA r acc) acc).Perm (acc ++ l) := by
  induction l with
  | nil => intro acc; simp
  | cons x l ih =>
    intro acc
    rw [List.foldl_cons]
    refine ((ih (insertCA x acc)).trans ?_)
    refine (((insertCA_perm x acc).append_right l).trans ?_)
    exact List.perm_middle.symm

theorem orderByCreatedAt_perm (l : List SignalRow) : (orderByCreatedAt l).Perm l := by
  simpa using foldl_insertCA_perm l []

theorem insertCA_of_le (r : SignalRow) (l : List SignalRow)
    (h : ∀ s ∈ l, s.created_at ≤ r.created_at) : insertCA r l = l ++ [r] := by
  induction l with
  | nil => rfl
  | cons s rest ih =>
    unfold insertCA
    rw [if_pos (h s (List.mem_cons_self s rest))]
    rw [ih (fun t ht => h t (List.mem_cons_of_mem s ht))]
    rfl

theorem orderByCreatedAt_of_sorted (l : List SignalRow)
    (h : l.Pairwise (fun a b => a.created_at ≤ b.created_at)) :
    orderByCreatedAt l = l := by
  induction l using List.reverseRecOn with
  | nil => rfl
  | append_singleton l r ih =>
    rw [List.pairwise_append] at h
    unfold orderByCreatedAt at *
    rw [List.foldl_append, List.foldl_cons, List.foldl_nil, ih h.1]
    exact insertCA_of_le r l (fun s hs => h.2.2 s hs r (List.mem_singleton_self r))

theorem mem_insertCA {t r : SignalRow} {l : List SignalRow}
    (h : t ∈ insertCA r l) : t = r ∨ t ∈ l := by
  have := (insertCA_perm r l).mem_iff.mp h
  simpa using this

theorem insertCA_pairwise_lex (r : SignalRow) (l : List SignalRow)
    (hl : l.Pairwise lexLT) (hid : ∀ s ∈ l, s.id < r.id) :
    (insertCA r l).Pairwise lexLT := by
  induction l with
  | nil => simp [insertCA, List.pairwise_singleton]
  | cons s rest ih =>
    rw [List.pairwise_cons] at hl
    unfold insertCA
    split
    · rename_i hle
      rw [List.pairwise_cons]
      refine ⟨?_, ih hl.2 (fun t ht => hid t (List.mem_cons_of_mem s ht))⟩
      intro t ht
      rcases mem_insertCA ht with rfl | ht'
      · rcases Nat.lt_or_ge s.created_at t.created_at with hlt | hge
        · exact Or.inl hlt
        · exact Or.inr ⟨Nat.le_antisymm hle hge, hid s (List.mem_cons_self s rest)⟩
      · exact hl.1 t ht'
    · rename_i hgt
      rw [List.pairwise_cons]
      refine ⟨?_, List.pairwise_cons.mpr hl⟩
      intro t ht
      rcases List.mem_cons.mp ht with rfl | ht'
      · exact Or.inl (Nat.lt_of_not_le hgt)
      · refine Or.inl (Nat.lt_of_lt_of_le (Nat.lt_of_not_le hgt) ?_)
        rcases hl.1 t ht' with h1 | h2
        · exact Nat.le_of_lt h1
        · exact Nat.le_of_eq h2.1

theorem foldl_insertCA_pairwise_lex (l : List SignalRow) :
    ∀ acc : List SignalRow, acc.Pairwise lexLT →
      (∀ s ∈ acc, ∀ t ∈ l, s.id < t.id) →
      l.Pairwise (fun a b => a.id < b.id) →
      (l.foldl (fun acc r => insertCA r acc) acc).Pairwise lexLT := by
  induction l with
  | nil => intro acc hacc _ _; simpa using hacc
  | cons x l ih =>
    intro acc hacc hcross hl
    rw [List.pairwise_cons] at hl
    rw [List.foldl_cons]
    refine ih (insertCA x acc) ?_ ?_ hl.2
    · exact insertCA_pairwise_lex x acc hacc
        (fun s hs => hcross s hs x (List.mem_cons_self x l))
    · intro s hs t ht
      rcases mem_insertCA hs with rfl | hs'
      · exact hl.1 t ht
      · exact hcross s hs' t (List.mem_cons_of_mem x ht)

theorem orderByCreatedAt_pairwise_lex (l : List SignalRow)
    (h : l.Pairwise (fun a b => a.id < b.id)) :
    (orderByCreatedAt l).Pairwise lexLT := by
  exact foldl_insertCA_pairwise_lex l [] List.Pairwise.nil (by simp) h

theorem eq_of_mem_of_id_eq :
    ∀ {l : List SignalRow}, l.Pairwise (fun a b => a.id < b.id) →
      ∀ {s t : SignalRow}, s ∈ l → t ∈ l → s.id = t.id → s = t := by
  intro l hl
  induction l with
  | nil => intro s t hs; exact absurd hs (List.not_mem_nil s)
  | cons x rest ih =>
    rw [List.pairwise_cons] at hl
    intro s t hs ht hid
    rcases List.mem_cons.mp hs with rfl | hs' <;> rcases List.mem_cons.mp ht with rfl | ht'
    · rfl
    · exact absurd hid (Nat.ne_of_lt (hl.1 t ht'))
    · exact absurd hid.symm (Nat.ne_of_lt (hl.1 s hs'))
    · exact ih hl.2 hs' ht' hid

/-! ## What one `Fetch` does -/

theorem rowsFor_perm (room d : String) (db : DB) :
    (rowsFor room d db).Perm (db.signals.filter (matchesTo room d)) :=
  orderByCreatedAt_perm _

theorem get_signals_run (room d : String) (db : DB) (hd : d ≠ "")
    (hwf : db.signals.Pairwise (fun a b => a.id < b.id)) :
    get_signals room (some d) db
      = (.ok ((rowsFor room d db).map viewMsg), dropDelivered room d db) := by
  have hd' : (d == "") = false := by simpa using hd
  simp only [get_signals, hd', Bool.false_eq_true, if_false]
  refine congrArg (Prod.mk _) ?_
  show ({ db with signals := _ } : DB) = dropDelivered room d db
  unfold dropDelivered
  refine congrArg (fun sg => ({ db with signals := sg } : DB)) ?_
  by_cases hids : orderByCreatedAt (db.signals.filter (matchesTo room d)) = []
  · have hfil : db.signals.filter (matchesTo room d) = [] := by
      have := orderByCreatedAt_perm (db.signals.filter (matchesTo room d))
      rw [hids] at this
      exact (List.Perm.nil_eq this).symm
    rw [hids]
    simp only [List.map_nil, List.isEmpty_nil, if_true]
    have hall : ∀ s ∈ db.signals, matchesTo room d s = false := by
      intro s hs
      by_contra hcon
      have : s ∈ db.signals.filter (matchesTo room d) :=
        List.mem_filter.mpr ⟨hs, by revert hcon; cases matchesTo room d s <;> simp⟩
      rw [hfil] at this
      exact absurd this (List.not_mem_nil s)
    exact (List.filter_eq_self.mpr (fun s hs => by rw [hall s hs]; rfl)).symm
  · rw [if_neg (by simpa [List.isEmpty_iff, List.map_eq_nil_iff] using hids)]
    refine List.filter_congr ?_
    intro s hs
    refine congrArg (fun b => !b) ?_
    by_cases hm : matchesTo room d s = true
    · rw [hm]
      have hsf : s ∈ db.signals.filter (matchesTo room d) := List.mem_filter.mpr ⟨hs, hm⟩
      have hrow : s ∈ orderByCreatedAt (db.signals.filter (matchesTo room d)) :=
        (orderByCreatedAt_perm _).mem_iff.mpr hsf
      have : s.id ∈ (orderByCreatedAt (db.signals.filter (matchesTo room d))).map
          (fun s => s.id) := List.mem_map.mpr ⟨s, hrow, rfl⟩
      exact List.elem_iff.mpr this
    · rw [Bool.eq_false_iff.mpr hm]
      by_contra hcon
      have hcon' : ((orderByCreatedAt (db.signals.filter (matchesTo room d))).map
          (fun s => s.id)).contains s.id = true := by
        revert hcon
        cases ((orderByCreatedAt (db.signals.filter (matchesTo room d))).map
          (fun s => s.id)).contains s.id <;> simp
      rcases List.mem_map.mp (List.elem_iff.mp hcon') with ⟨t, ht, hid⟩
      have htf : t ∈ db.signals.filter (matchesTo room d) :=
        (orderByCreatedAt_perm _).mem_iff.mp ht
      have ht1 := List.mem_filter.mp htf
      refine hm ?_
      rw [eq_of_mem_of_id_eq hwf hs ht1.1 hid.symm]
      exact ht1.2

theorem get_signals_of_no_match (room d : String) (db : DB) (hd : d ≠ "")
    (hemp : db.signals.filter (matchesTo room d) = []) :
    get_signals room (some d) db = (.ok [], db) := by
  have hd' : (d == "") = false := by simpa using hd
  simp only [get_signals, hd', Bool.false_eq_true, if_false, hemp]
  rfl

theorem dropDelivered_no_match (room d : String) (db : DB) :
    (dropDelivered room d db).signals.filter (matchesTo room d) = [] := by
  rw [List.filter_eq_nil_iff]
  intro s hs
  have h2 := (List.mem_filter.mp hs).2
  intro hcon
  rw [hcon] at h2
  exact absurd h2 (by simp)

theorem filter_sub_no_match (room d : String) {l : List SignalRow} (p : SignalRow → Bool)
    (hemp : l.filter (matchesTo room d) = []) :
    (l.filter p).filter (matchesTo room d) = [] := by
  rw [List.filter_eq_nil_iff] at hemp ⊢
  intro s hs
  exact hemp s (List.mem_filter.mp hs).1

theorem iterFetch_of_no_match (room d : String) (db : DB) (hd : d ≠ "")
    (hemp : db.signals.filter (matchesTo room d) = []) :
    ∀ k, iterFetch room (some d) k db = (List.replicate k (FetchResult.ok []), db) := by
  intro k
  induction k with
  | zero => rfl
  | succ k ih =>
    simp only [iterFetch, get_signals_of_no_match room d db hd hemp, ih, List.replicate]

theorem get_signals_consumes (room d : String) (db : DB) (hd : d ≠ "") :
    ((get_signals room (some d) db).2).signals.filter (matchesTo room d) = [] := by
  have hd' : (d == "") = false := by simpa using hd
  simp only [get_signals, hd', Bool.false_eq_true, if_false]
  by_cases hids : orderByCreatedAt (db.signals.filter (matchesTo room d)) = []
  · simp only [hids, List.map_nil, List.isEmpty_nil, if_true]
    have hperm := orderByCreatedAt_perm (db.signals.filter (matchesTo room d))
    rw [hids] at hperm
    exact (List.Perm.nil_eq hperm).symm
  · rw [if_neg (by simpa [List.isEmpty_iff, List.map_eq_nil_iff] using hids)]
    rw [List.filter_eq_nil_iff]
    intro s hs
    rcases List.mem_filter.mp hs with ⟨hs1, hs2⟩
    intro hm
    have hmem : s ∈ orderByCreatedAt (db.signals.filter (matchesTo room d)) :=
      (orderByCreatedAt_perm _).mem_iff.mpr (List.mem_filter.mpr ⟨hs1, hm⟩)
    have hc : ((orderByCreatedAt (db.signals.filter (matchesTo room d))).map
        (fun s => s.id)).contains s.id = true :=
      List.elem_iff.mpr (List.mem_map.mpr ⟨s, hmem, rfl⟩)
    rw [hc] at hs2
    exact absurd hs2 (by simp)

/-- C3: for every room and device, immediately repeating `Fetch(roomId, D)`
with no intervening `Send` returns an empty list: the first fetch consumes
everything it returned, and the empty result is the successful `.ok []`
outcome (a 200 response), not an error. -/
theorem c3_repeat_fetch_empty (room d : String) (db : DB) (hd : d ≠ "") :
    get_signals room (some d) (get_signals room (some d) db).2
      = (.ok [], (get_signals room (some d) db).2) :=
  get_signals_of_no_match room d _ hd (get_signals_consumes room d db hd)

/-- Witness for C3 at a concrete store holding one pending signal for `P`. -/
theorem c3_repeat_fetch_empty_witness :
    ("P" : String) ≠ "" ∧
      get_signals "042517" (some "P")
          (get_signals "042517" (some "P")
            (DB.mk [RoomRow.mk "042517" (.str "H") 100 "open"]
              [ParticipantRow.mk (.str "H") "042517" "host" 100]
              [SignalRow.mk 1 "042517" (.str "H") (.str "P") (.str "offer")
                (dumps (.obj [("sdp", .str "x")])) 102] 2)).2
        = (.ok [],
           (get_signals "042517" (some "P")
            (DB.mk [RoomRow.mk "042517" (.str "H") 100 "open"]
              [ParticipantRow.mk (.str "H") "042517" "host" 100]
              [SignalRow.mk 1 "042517" (.str "H") (.str "P") (.str "offer")
                (dumps (.obj [("sdp", .str "x")])) 102] 2)).2) :=
  ⟨by decide, c3_repeat_fetch_empty "042517" "P" _ (by decide)⟩

theorem map_eq_self_of_fix {α : Type} {l : List α} {f : α → α}
    (h : ∀ a ∈ l, f a = a) : l.map f = l := by
  induction l with
  | nil => rfl
  | cons x xs ih =>
    rw [List.map_cons, h x (List.mem_cons_self x xs),
      ih (fun a ha => h a (List.mem_cons_of_mem x ha))]

theorem filter_not_filter_eq_nil {α : Type} (p : α → Bool) (l : List α) :
    (l.filter (fun a => !(p a))).filter p = [] := by
  rw [List.filter_eq_nil_iff]
  intro a ha
  rcases List.mem_filter.mp ha with ⟨_, h2⟩
  intro hcon
  rw [hcon] at h2
  exact absurd h2 (by simp)

/-- C6: `CloseRoom` is idempotent and cascades: it always acks, leaves any
room row with that id CLOSED, deletes all participant and signal rows of the
room (so `ListPresent` and any subsequent `Fetch` for the room return empty,
even for signals sent before closure and never fetched), and on a room no
row references it is a successful no-op, not an error. -/
theorem c6_close_room_cascades (R : String) (db : DB) :
    (close_room R db).1 = CloseResult.closedAck
    ∧ (∀ r ∈ (close_room R db).2.rooms, r.room_id = R → r.status = "closed")
    ∧ (close_room R db).2.participants.filter (fun p => p.room_id == R) = []
    ∧ (close_room R db).2.signals.filter (fun s => s.room_id == R) = []
    ∧ (∀ now : Nat, list_participants R now (close_room R db).2 = [])
    ∧ (∀ d : String, d ≠ "" →
        get_signals R (some d) (close_room R db).2
          = (.ok [], (close_room R db).2))
    ∧ ((∀ r ∈ db.rooms, r.room_id ≠ R) →
        (∀ p ∈ db.participants, p.room_id ≠ R) →
        (∀ s ∈ db.signals, s.room_id ≠ R) →
        (close_room R db).2 = db) := by
  refine ⟨rfl, ?_, ?_, ?_, ?_, ?_, ?_⟩
  · intro r hr hid
    simp only [close_room, List.mem_map] at hr
    rcases hr with ⟨r0, _, rfl⟩
    by_cases h : (r0.room_id == R) = true
    · rw [if_pos h]
    · rw [if_neg h] at hid
      exact absurd (beq_iff_eq.mpr hid) h
  · exact filter_not_filter_eq_nil _ _
  · exact filter_not_filter_eq_nil _ _
  · intro now
    unfold list_participants
    rw [show ((close_room R db).2.participants.filter
        (fun p => p.room_id == R && now - 30 < p.last_seen)) = [] from ?_]
    · rfl
    · rw [List.filter_eq_nil_iff]
      intro p hp
      rcases List.mem_filter.mp hp with ⟨_, h2⟩
      simp only [Bool.not_eq_true'] at h2
      simp [h2]
  · intro d hd
    refine get_signals_of_no_match R d _ hd ?_
    rw [List.filter_eq_nil_iff]
    intro s hs
    rcases List.mem_filter.mp hs with ⟨_, h2⟩
    simp only [Bool.not_eq_true'] at h2
    simp [matchesTo, h2]
  · intro h1 h2 h3
    have e1 : db.rooms.map (fun r =>
        if r.room_id == R then { r with status := "closed" } else r) = db.rooms := by
      refine map_eq_self_of_fix ?_
      intro r hr
      rw [if_neg (by simpa using h1 r hr)]
    have e2 : db.participants.filter (fun p => !(p.room_id == R)) = db.participants := by
      refine List.filter_eq_self.mpr ?_
      intro p hp
      simpa using h2 p hp
    have e3 : db.signals.filter (fun s => !(s.room_id == R)) = db.signals := by
      refine List.filter_eq_self.mpr ?_
      intro s hs
      simpa using h3 s hs
    show ({ db with rooms := _, participants := _, signals := _ } : DB) = db
    rw [e1, e2, e3]

/-- A populated store: open room `042517` with host `H`, peer `P`, and one
undelivered signal for `P`. -/
def exOpenDB : DB :=
  DB.mk [RoomRow.mk "042517" (.str "H") 100 "open"]
    [ParticipantRow.mk (.str "H") "042517" "host" 100,
     ParticipantRow.mk (.str "P") "042517" "peer" 101]
    [SignalRow.mk 1 "042517" (.str "H") (.str "P") (.str "offer")
      (dumps (.obj [("sdp", .str "x")])) 102] 2

/-- A store in which nothing references room `042517`. -/
def exOtherDB : DB :=
  DB.mk [RoomRow.mk "111111" (.str "Z") 7 "open"]
    [ParticipantRow.mk (.str "Z") "111111" "host" 7]
    [SignalRow.mk 1 "111111" (.str "Z") (.str "Q") (.str "offer")
      (dumps .null) 8] 2

/-- Witness for C6 at the concrete stores `exOpenDB` and `exOtherDB`. -/
theorem c6_close_room_cascades_witness :
    (close_room "042517" exOpenDB).1 = CloseResult.closedAck
    ∧ list_participants "042517" 120 (close_room "042517" exOpenDB).2 = []
    ∧ get_signals "042517" (some "P") (close_room "042517" exOpenDB).2
        = (.ok [], (close_room "042517" exOpenDB).2)
    ∧ (close_room "042517" exOtherDB).2 = exOtherDB :=
  ⟨(c6_close_room_cascades "042517" exOpenDB).1,
   (c6_close_room_cascades "042517" exOpenDB).2.2.2.2.1 120,
   (c6_close_room_cascades "042517" exOpenDB).2.2.2.2.2.1 "P" (by decide),
   (c6_close_room_cascades "042517" exOtherDB).2.2.2.2.2.2
     (by decide) (by decide) (by decide)⟩

mutual

theorem jeq_refl : ∀ v : Json, jeq v v = true
  | .null => rfl
  | .bool b => by simp [jeq]
  | .num n => by simp [jeq]
  | .str s => by simp [jeq]
  | .arr xs => by simp [jeq, jeqArr_refl xs]
  | .obj ms => by simp [jeq, jeqObj_refl ms]

theorem jeqArr_refl : ∀ xs : List Json, jeqArr xs xs = true
  | [] => rfl
  | x :: xs => by simp [jeqArr, jeq_refl x, jeqArr_refl xs]

theorem jeqObj_refl : ∀ ms : List (String × Json), jeqObj ms ms = true
  | [] => rfl
  | (k, v) :: ms => by simp [jeqObj, jeq_refl v, jeqObj_refl ms]

end

/-- C7 counterexample: a heartbeat for a `(room, device)` pair that was never
registered reports success (`alive`, a 200 response) and is a no-op, instead
of failing with `ParticipantNotFound` as the claim states. -/
theorem c7_counterexample_heartbeat_unknown_succeeds :
    heartbeat "042517" [("device_id", Json.str "X")] 5 initDB
      = (HeartbeatResult.alive, initDB) := rfl

/-- C7 (amended): `heartbeat` on a `(room, device)` pair that was never
registered performs a zero-row conditional update and still reports success:
the result is `alive` and the store is unchanged. -/
theorem c7_heartbeat_unknown_noop (R : String) (body : List (String × Json))
    (now : Nat) (db : DB)
    (hval : jsonFalsy (pyGet body "device_id") = false)
    (hnone : ∀ p ∈ db.participants,
      ¬(p.room_id = R ∧ jeq p.device_id (pyGet body "device_id") = true)) :
    heartbeat R body now db = (.alive, db) := by
  simp only [heartbeat, hval, Bool.false_eq_true, if_false]
  refine congrArg (Prod.mk _) ?_
  show ({ db with participants := _ } : DB) = db
  rw [map_eq_self_of_fix ?_]
  intro p hp
  rw [if_neg]
  intro hcon
  rcases Bool.and_eq_true _ _ |>.mp hcon with ⟨h1, h2⟩
  exact hnone p hp ⟨beq_iff_eq.mp h1, h2⟩

/-- Witness for C7's amended theorem: heartbeat for device `X` in a room
where only `H` and `P` are registered. -/
theorem c7_heartbeat_unknown_noop_witness :
    jsonFalsy (pyGet [("device_id", Json.str "X")] "device_id") = false
    ∧ heartbeat "042517" [("device_id", Json.str "X")] 5 exOpenDB
        = (.alive, exOpenDB) :=
  ⟨by decide, c7_heartbeat_unknown_noop "042517" _ 5 exOpenDB (by decide) (by decide)⟩

/-- C10: `send_signal` rejects a request any of whose `from`, `to`, `type`,
`payload` fields is Python `None` — which covers both a field bound to JSON
`null` and an absent field, since `data.get` returns `None` for both — as the
missing-fields 400 error, inserting no signal row.  In particular the
explicit-null body and the absent-key body are treated identically. -/
theorem c10_send_null_is_missing (R : String) (now draw : Nat) (db : DB)
    (f t ty : Json) (body : List (String × Json))
    (hnull : (isNull (pyGet body "from") || isNull (pyGet body "to")
      || isNull (pyGet body "type") || isNull (pyGet body "payload")) = true) :
    send_signal R [("from", f), ("to", t), ("type", ty), ("payload", Json.null)]
        now draw db = (.missingFields, db)
    ∧ send_signal R [("from", f), ("to", t), ("type", ty)] now draw db
        = (.missingFields, db)
    ∧ send_signal R body now draw db = (.missingFields, db) := by
  refine ⟨?_, ?_, ?_⟩
  · show (if (isNull f || isNull t || isNull ty || isNull Json.null) = true
        then _ else _) = _
    rw [if_pos (by simp [isNull])]
  · show (if (isNull f || isNull t || isNull ty || isNull Json.null) = true
        then _ else _) = _
    rw [if_pos (by simp [isNull])]
  · show (if (isNull (pyGet body "from") || isNull (pyGet body "to")
        || isNull (pyGet body "type") || isNull (pyGet body "payload")) = true
        then _ else _) = _
    rw [if_pos hnull]

/-- Witness for C10: a body whose `payload` key is bound to JSON `null`. -/
theorem c10_send_null_is_missing_witness :
    (isNull (pyGet [("from", Json.str "H"), ("to", Json.str "P"),
        ("type", Json.str "offer"), ("payload", Json.null)] "from")
      || isNull (pyGet [("from", Json.str "H"), ("to", Json.str "P"),
        ("type", Json.str "offer"), ("payload", Json.null)] "to")
      || isNull (pyGet [("from", Json.str "H"), ("to", Json.str "P"),
        ("type", Json.str "offer"), ("payload", Json.null)] "type")
      || isNull (pyGet [("from", Json.str "H"), ("to", Json.str "P"),
        ("type", Json.str "offer"), ("payload", Json.null)] "payload")) = true
    ∧ send_signal "042517" [("from", Json.str "H"), ("to", Json.str "P"),
        ("type", Json.str "offer"), ("payload", Json.null)] 5 1 exOpenDB
      = (.missingFields, exOpenDB) :=
  ⟨by decide,
   (c10_send_null_is_missing "042517" 5 1 exOpenDB (Json.str "H") (Json.str "P")
     (Json.str "offer") _ (by decide)).2.2⟩

/-- The store after room `100000` was created by `H` and then closed: the
room row persists with status `closed`. -/
def exClosedDB : DB :=
  (close_room "100000" (create_room "100000" [("device_id", .str "H")] 0 initDB).2).2

/-- C5 counterexample: a send into the CLOSED room `100000` (and one into a
room that does not exist at all) succeeds with `ok` and appends a signal row,
instead of failing with `RoomNotOpen`/`RoomNotFound` as the claim states. -/
theorem c5_counterexample_send_into_closed_room :
    exClosedDB.rooms.map (fun r => r.status) = ["closed"]
    ∧ (send_signal "100000" [("from", .str "H"), ("to", .str "P"),
        ("type", .str "offer"), ("payload", .str "hi")] 5 1 exClosedDB).1
      = SendResult.ok
    ∧ (send_signal "100000" [("from", .str "H"), ("to", .str "P"),
        ("type", .str "offer"), ("payload", .str "hi")] 5 1 exClosedDB).2.signals.map
        (fun s => s.room_id) = ["100000"]
    ∧ (send_signal "zzz" [("from", .str "A"), ("to", .str "B"),
        ("type", .str "offer"), ("payload", .str "hi")] 5 1 initDB).1
      = SendResult.ok
    ∧ (send_signal "zzz" [("from", .str "A"), ("to", .str "B"),
        ("type", .str "offer"), ("payload", .str "hi")] 5 1 initDB).2.signals.map
        (fun s => s.room_id) = ["zzz"] :=
  ⟨rfl, rfl, rfl, rfl, rfl⟩

/-- C5 (amended): `send_signal` never consults the `rooms` table: for every
store — whatever the status of the addressed room, even absent — a request
with all four fields present succeeds with `ok` and appends the signal row
(which survives the optional inline sweep, being fresh). -/
theorem c5_send_ignores_room_state (R : String) (body : List (String × Json))
    (now draw : Nat) (db : DB)
    (hf : isNull (pyGet body "from") = false)
    (ht : isNull (pyGet body "to") = false)
    (hy : isNull (pyGet body "type") = false)
    (hp : isNull (pyGet body "payload") = false) :
    (send_signal R body now draw db).1 = SendResult.ok
    ∧ SignalRow.mk db.nextSignalId R (pyGet body "from") (pyGet body "to")
        (pyGet body "type") (dumps (pyGet body "payload")) now
      ∈ (send_signal R body now draw db).2.signals := by
  have hcond : (isNull (pyGet body "from") || isNull (pyGet body "to")
      || isNull (pyGet body "type") || isNull (pyGet body "payload")) = false := by
    rw [hf, ht, hy, hp]
    rfl
  constructor
  · show (if (isNull (pyGet body "from") || isNull (pyGet body "to")
        || isNull (pyGet body "type") || isNull (pyGet body "payload")) = true
        then ((SendResult.missingFields, db) : SendResult × DB)
        else _).1 = SendResult.ok
    rw [hcond]
    simp only [Bool.false_eq_true, if_false]
  · show SignalRow.mk db.nextSignalId R (pyGet body "from") (pyGet body "to")
        (pyGet body "type") (dumps (pyGet body "payload")) now
      ∈ (if (isNull (pyGet body "from") || isNull (pyGet body "to")
        || isNull (pyGet body "type") || isNull (pyGet body "payload")) = true
        then ((SendResult.missingFields, db) : SendResult × DB)
        else _).2.signals
    rw [hcond]
    simp only [Bool.false_eq_true, if_false]
    by_cases hdraw : (draw % 10 == 0) = true
    · rw [if_pos hdraw]
      refine List.mem_filter.mpr ⟨List.mem_append_right _ (List.mem_singleton_self _), ?_⟩
      simp only [Bool.not_eq_true']
      rw [decide_eq_false]
      omega
    · rw [if_neg hdraw]
      exact List.mem_append_right _ (List.mem_singleton_self _)

/-- Witness for C5's amended theorem at the closed-room store. -/
theorem c5_send_ignores_room_state_witness :
    isNull (pyGet [("from", Json.str "H"), ("to", Json.str "P"),
        ("type", Json.str "offer"), ("payload", Json.str "hi")] "from") = false
    ∧ ((send_signal "100000" [("from", Json.str "H"), ("to", Json.str "P"),
        ("type", Json.str "offer"), ("payload", Json.str "hi")] 5 1 exClosedDB).1
        = SendResult.ok
      ∧ SignalRow.mk exClosedDB.nextSignalId "100000"
          (pyGet [("from", Json.str "H"), ("to", Json.str "P"),
            ("type", Json.str "offer"), ("payload", Json.str "hi")] "from")
          (pyGet [("from", Json.str "H"), ("to", Json.str "P"),
            ("type", Json.str "offer"), ("payload", Json.str "hi")] "to")
          (pyGet [("from", Json.str "H"), ("to", Json.str "P"),
            ("type", Json.str "offer"), ("payload", Json.str "hi")] "type")
          (dumps (pyGet [("from", Json.str "H"), ("to", Json.str "P"),
            ("type", Json.str "offer"), ("payload", Json.str "hi")] "payload")) 5
        ∈ (send_signal "100000" [("from", Json.str "H"), ("to", Json.str "P"),
            ("type", Json.str "offer"), ("payload", Json.str "hi")] 5 1 exClosedDB).2.signals) :=
  ⟨by decide,
   c5_send_ignores_room_state "100000" _ 5 1 exClosedDB
     (by decide) (by decide) (by decide) (by decide)⟩

/-- The store after `create_room` registered host `H` in room `100000`:
the participant row has role `host`. -/
def exHostDB : DB :=
  (create_room "100000" [("device_id", .str "H")] 0 initDB).2

/-- C4 counterexample: the host `H` of room `100000` re-joins through
`join_room`, which succeeds and overwrites the stored role from `host` to
`peer` — the role does not stay unchanged as the claim states. -/
theorem c4_counterexample_join_overwrites_host_role :
    exHostDB.participants.map (fun p => p.role) = ["host"]
    ∧ (join_room "100000" [("device_id", .str "H")] 1 exHostDB).2.participants.map
        (fun p => p.role) = ["peer"] :=
  ⟨rfl, rfl⟩

/-- C4 (amended): `join_room` on an OPEN room upserts via
`INSERT OR REPLACE` with role hard-coded to `peer` and `last_seen = now`: a
re-joining device has its `last_seen` refreshed but its stored role
overwritten to `peer` (so the role is unchanged only when it already was
`peer`; the host's role is not preserved); all other participant rows are
untouched. -/
theorem c4_join_upserts_role_peer (R : String) (body : List (String × Json))
    (now : Nat) (db : DB) (room : RoomRow)
    (hval : jsonFalsy (pyGet body "device_id") = false)
    (hroom : db.rooms.find?
      (fun r => r.room_id == R && r.status == "open") = some room) :
    (join_room R body now db).1
      = JoinResult.ok ("peer-" ++ pyStr (pyGet body "device_id") ++ "-" ++ R)
        room.host_id
    ∧ (join_room R body now db).2.participants.filter
        (fun p => jeq p.device_id (pyGet body "device_id") && p.room_id == R)
      = [ParticipantRow.mk (pyGet body "device_id") R "peer" now]
    ∧ (join_room R body now db).2.participants.filter
        (fun p => !(jeq p.device_id (pyGet body "device_id") && p.room_id == R))
      = db.participants.filter
        (fun p => !(jeq p.device_id (pyGet body "device_id") && p.room_id == R)) := by
  have hm0 : (jeq (pyGet body "device_id") (pyGet body "device_id") && (R == R)) = true := by
    rw [jeq_refl, beq_self_eq_true]
    rfl
  simp only [join_room, hval, Bool.false_eq_true, if_false, hroom]
  refine ⟨by trivial, ?_, ?_⟩
  · rw [List.filter_append, filter_not_filter_eq_nil, List.nil_append]
    simp [jeq_refl]
  · have hnil : List.filter
        (fun p => !(jeq p.device_id (pyGet body "device_id") && p.room_id == R))
        [ParticipantRow.mk (pyGet body "device_id") R "peer" now] = [] := by
      simp [jeq_refl]
    rw [List.filter_append, hnil, List.append_nil, List.filter_filter]
    refine List.filter_congr ?_
    intro p hp
    rw [Bool.and_self]

/-- Witness for C4's amended theorem: host `H` re-joins room `100000`. -/
theorem c4_join_upserts_role_peer_witness :
    jsonFalsy (pyGet [("device_id", Json.str "H")] "device_id") = false
    ∧ ((join_room "100000" [("device_id", Json.str "H")] 1 exHostDB).1
        = JoinResult.ok
          ("peer-" ++ pyStr (pyGet [("device_id", Json.str "H")] "device_id") ++ "-" ++ "100000")
          (RoomRow.mk "100000" (.str "H") 0 "open").host_id
      ∧ (join_room "100000" [("device_id", Json.str "H")] 1 exHostDB).2.participants.filter
          (fun p => jeq p.device_id (pyGet [("device_id", Json.str "H")] "device_id")
            && p.room_id == "100000")
        = [ParticipantRow.mk (pyGet [("device_id", Json.str "H")] "device_id") "100000" "peer" 1]
      ∧ (join_room "100000" [("device_id", Json.str "H")] 1 exHostDB).2.participants.filter
          (fun p => !(jeq p.device_id (pyGet [("device_id", Json.str "H")] "device_id")
            && p.room_id == "100000"))
        = exHostDB.participants.filter
          (fun p => !(jeq p.device_id (pyGet [("device_id", Json.str "H")] "device_id")
            && p.room_id == "100000"))) :=
  ⟨by decide,
   c4_join_upserts_role_peer "100000" _ 1 exHostDB (RoomRow.mk "100000" (.str "H") 0 "open")
     (by decide) (by rfl)⟩

/-- C8: the failing input — `create_room` drawing the identifier `654321`
while a room `654321` already exists.  The code makes that single attempt,
surfaces the store's duplicate-key failure as a 500 error, and stops: there
is no retry loop and no `RoomCreationExhausted` distinction. -/
theorem c8_create_room_collision_surfaces_error :
    create_room "654321" [("device_id", Json.str "G")] 7
        (create_room "654321" [("device_id", Json.str "H")] 0 initDB).2
      = (CreateResult.dbError,
         (create_room "654321" [("device_id", Json.str "H")] 0 initDB).2) := rfl

/-! ## What a sequence of sends does -/

theorem countP_congr_mem {α : Type} {l : List α} {p q : α → Bool}
    (h : ∀ a ∈ l, p a = q a) : l.countP p = l.countP q := by
  induction l with
  | nil => rfl
  | cons x xs ih =>
    rw [List.countP_cons, List.countP_cons, h x (List.mem_cons_self x xs),
      ih (fun a ha => h a (List.mem_cons_of_mem x ha))]

theorem send_step (R D : String) (q : SendReq) (db : DB) (hok : okReq q = true) :
    ∃ p : SignalRow → Bool,
      ((send_signal R (sendBody D q) q.now q.draw db).2).signals
        = db.signals.filter p ++ [sentRow R D db.nextSignalId q]
      ∧ (∀ s : SignalRow, ¬(s.created_at < q.now - 600) → p s = true)
      ∧ ((send_signal R (sendBody D q) q.now q.draw db).2).nextSignalId
        = db.nextSignalId + 1
      ∧ (send_signal R (sendBody D q) q.now q.draw db).1 = SendResult.ok := by
  rcases Bool.and_eq_true _ _ |>.mp hok with ⟨h12, h3⟩
  rcases Bool.and_eq_true _ _ |>.mp h12 with ⟨h1, h2⟩
  rw [Bool.not_eq_true'] at h1 h2 h3
  have hcond : (isNull (pyGet (sendBody D q) "from")
      || isNull (pyGet (sendBody D q) "to")
      || isNull (pyGet (sendBody D q) "type")
      || isNull (pyGet (sendBody D q) "payload")) = false := by
    show (isNull q.fromD || isNull (Json.str D) || isNull q.ty || isNull q.payload) = false
    rw [h1, h2, h3]
    rfl
  have hred : send_signal R (sendBody D q) q.now q.draw db
      = (SendResult.ok,
         if (q.draw % 10 == 0) = true
         then clean_stale_data q.now
           { db with signals := db.signals ++ [sentRow R D db.nextSignalId q],
                     nextSignalId := db.nextSignalId + 1 }
         else { db with signals := db.signals ++ [sentRow R D db.nextSignalId q],
                        nextSignalId := db.nextSignalId + 1 }) := by
    show (if (isNull (pyGet (sendBody D q) "from")
        || isNull (pyGet (sendBody D q) "to")
        || isNull (pyGet (sendBody D q) "type")
        || isNull (pyGet (sendBody D q) "payload")) = true
      then ((SendResult.missingFields, db) : SendResult × DB)
      else _) = _
    rw [hcond]
    simp only [Bool.false_eq_true, if_false]
    split <;> rfl
  have h0 : ¬(q.now < q.now - 600) := by omega
  by_cases hdraw : (q.draw % 10 == 0) = true
  · refine ⟨fun s => !(s.created_at < q.now - 600), ?_, ?_, ?_, ?_⟩
    · rw [hred]
      simp only [hdraw, if_true, clean_stale_data]
      rw [List.filter_append]
      have hsing : List.filter (fun s => !(decide (s.created_at < q.now - 600)))
          [sentRow R D db.nextSignalId q] = [sentRow R D db.nextSignalId q] := by
        simp [sentRow, h0]
      rw [hsing]
    · intro s hs
      simp [hs]
    · rw [hred]
      simp only [hdraw, if_true]
      rfl
    · rw [hred]
  · refine ⟨fun _ => true, ?_, ?_, ?_, ?_⟩
    · rw [hred, if_neg hdraw]
      rw [List.filter_true]
    · intro s _
      rfl
    · rw [hred, if_neg hdraw]
    · rw [hred]

theorem runSends_signals (R D : String) :
    ∀ (qs : List SendReq) (db : DB),
      (∀ q ∈ qs, okReq q = true) →
      qs.Pairwise (fun a b => b.now ≤ a.now + 600) →
      ∃ p : SignalRow → Bool,
        (runSends R D db qs).signals
          = db.signals.filter p ++ sentRows R D db.nextSignalId qs
        ∧ (∀ s : SignalRow, (∀ q ∈ qs, ¬(s.created_at < q.now - 600)) → p s = true)
        ∧ (runSends R D db qs).nextSignalId = db.nextSignalId + qs.length := by
  intro qs
  induction qs with
  | nil =>
    intro db _ _
    refine ⟨fun _ => true, ?_, fun _ _ => rfl, rfl⟩
    rw [List.filter_true]
    show db.signals = db.signals ++ []
    rw [List.append_nil]
  | cons q qs ih =>
    intro db hok hwin
    rw [List.pairwise_cons] at hwin
    rcases send_step R D q db (hok q (List.mem_cons_self q qs)) with
      ⟨p1, hsig1, hkeep1, hnext1, _⟩
    rcases ih (send_signal R (sendBody D q) q.now q.draw db).2
        (fun x hx => hok x (List.mem_cons_of_mem q hx)) hwin.2 with
      ⟨p2, hsig2, hkeep2, hnext2⟩
    refine ⟨fun s => p2 s && p1 s, ?_, ?_, ?_⟩
    · show (runSends R D (send_signal R (sendBody D q) q.now q.draw db).2 qs).signals = _
      rw [hsig2, hsig1, hnext1, List.filter_append, List.filter_filter]
      have hrow : List.filter p2 [sentRow R D db.nextSignalId q]
          = [sentRow R D db.nextSignalId q] := by
        have hp2 : p2 (sentRow R D db.nextSignalId q) = true := by
          refine hkeep2 _ ?_
          intro q' hq'
          show ¬(q.now < q'.now - 600)
          have := hwin.1 q' hq'
          omega
        rw [List.filter_cons_of_pos hp2, List.filter_nil]
      rw [hrow, List.append_assoc]
      rfl
    · intro s hs
      have e1 : p1 s = true := hkeep1 s (hs q (List.mem_cons_self q qs))
      have e2 : p2 s = true := hkeep2 s (fun x hx => hs x (List.mem_cons_of_mem q hx))
      show (p2 s && p1 s) = true
      rw [e1, e2]
      rfl
    · show (runSends R D (send_signal R (sendBody D q) q.now q.draw db).2 qs).nextSignalId = _
      rw [hnext2, hnext1, List.length_cons]
      omega

theorem sentRows_id_bounds (R D : String) :
    ∀ (qs : List SendReq) (base : Nat), ∀ s ∈ sentRows R D base qs,
      base ≤ s.id ∧ s.id < base + qs.length := by
  intro qs
  induction qs with
  | nil => intro base s hs; exact absurd hs (List.not_mem_nil s)
  | cons q qs ih =>
    intro base s hs
    rcases List.mem_cons.mp hs with rfl | hs'
    · simp [sentRow]
    · have := ih (base + 1) s hs'
      rw [List.length_cons]
      omega

theorem sentRows_pairwise (R D : String) :
    ∀ (qs : List SendReq) (base : Nat),
      (sentRows R D base qs).Pairwise (fun a b => a.id < b.id) := by
  intro qs
  induction qs with
  | nil => intro base; exact List.Pairwise.nil
  | cons q qs ih =>
    intro base
    rw [sentRows, List.pairwise_cons]
    refine ⟨?_, ih (base + 1)⟩
    intro s hs
    have := (sentRows_id_bounds R D qs (base + 1) s hs).1
    show base < s.id
    omega

theorem sentRows_matches (R D : String) :
    ∀ (qs : List SendReq) (base : Nat), ∀ s ∈ sentRows R D base qs,
      matchesTo R D s = true := by
  intro qs
  induction qs with
  | nil => intro base s hs; exact absurd hs (List.not_mem_nil s)
  | cons q qs ih =>
    intro base s hs
    rcases List.mem_cons.mp hs with rfl | hs'
    · show ((R == R) && jeq (Json.str D) (Json.str D)) = true
      rw [beq_self_eq_true, jeq_refl]
      rfl
    · exact ih (base + 1) s hs'

theorem sentRows_countP (R D : String) :
    ∀ (qs : List SendReq) (base i : Nat), i < qs.length →
      (sentRows R D base qs).countP (fun s => s.id == base + i) = 1 := by
  intro qs
  induction qs with
  | nil => intro base i hi; exact absurd hi (by simp)
  | cons q qs ih =>
    intro base i hi
    rw [sentRows, List.countP_cons]
    match i with
    | 0 =>
      have hz : (sentRows R D (base + 1) qs).countP (fun s => s.id == base + 0) = 0 := by
        rw [List.countP_eq_zero]
        intro s hs
        have := (sentRows_id_bounds R D qs (base + 1) s hs).1
        simp only [beq_iff_eq]
        omega
      rw [hz]
      have : (sentRow R D base q).id == base + 0 := by simp [sentRow]
      rw [if_pos this]
    | j + 1 =>
      have hne : ¬((sentRow R D base q).id == base + (j + 1)) = true := by
        simp only [sentRow, beq_iff_eq]
        omega
      rw [if_neg hne, Nat.add_zero]
      have he : base + (j + 1) = (base + 1) + j := by omega
      rw [he]
      exact ih (base + 1) j (by simpa using hi)

theorem runSends_wf (R D : String) (qs : List SendReq) (db : DB)
    (hok : ∀ q ∈ qs, okReq q = true)
    (hwin : qs.Pairwise (fun a b => b.now ≤ a.now + 600))
    (hwf : SignalsWF db) : SignalsWF (runSends R D db qs) := by
  rcases runSends_signals R D qs db hok hwin with ⟨p, hsig, _, hnext⟩
  constructor
  · rw [hsig, List.pairwise_append]
    refine ⟨List.Pairwise.sublist (List.filter_sublist db.signals) hwf.1, sentRows_pairwise R D qs _, ?_⟩
    intro a ha b hb
    have h1 : a.id < db.nextSignalId :=
      hwf.2 a (List.mem_of_mem_filter ha)
    have h2 := (sentRows_id_bounds R D qs db.nextSignalId b hb).1
    omega
  · intro s hs
    rw [hsig] at hs
    rw [hnext]
    rcases List.mem_append.mp hs with h | h
    · have := hwf.2 s (List.mem_of_mem_filter h)
      omega
    · exact (sentRows_id_bounds R D qs db.nextSignalId s h).2

/-- C1: for a sequence of accepted sends addressed to device `D` in room `R`
(timestamps within the retention window, so the inline sweep cannot evict
them), followed by fetches for `D`: the first fetch returns the selected rows
and deletes precisely the rows it returned — the store keeps exactly the
non-matching rows — each sent signal occurs exactly once among the selected
rows, and every subsequent fetch returns the empty (still successful) result,
so no signal is ever delivered twice. -/
theorem c1_at_most_once_delivery (R D : String) (db : DB) (qs : List SendReq)
    (hD : D ≠ "") (hwf : SignalsWF db)
    (hok : ∀ q ∈ qs, okReq q = true)
    (hwin : qs.Pairwise (fun a b => b.now ≤ a.now + 600)) :
    get_signals R (some D) (runSends R D db qs)
      = (.ok ((rowsFor R D (runSends R D db qs)).map viewMsg),
         dropDelivered R D (runSends R D db qs))
    ∧ (∀ i : Nat, i < qs.length →
        (rowsFor R D (runSends R D db qs)).countP
          (fun s => s.id == db.nextSignalId + i) = 1)
    ∧ (∀ k : Nat, iterFetch R (some D) k (dropDelivered R D (runSends R D db qs))
        = (List.replicate k (FetchResult.ok []),
           dropDelivered R D (runSends R D db qs))) := by
  have hwf' := runSends_wf R D qs db hok hwin hwf
  refine ⟨get_signals_run R D _ hD hwf'.1, ?_, ?_⟩
  · intro i hi
    rw [List.Perm.countP_eq _ (rowsFor_perm R D (runSends R D db qs)),
      List.countP_filter]
    rcases runSends_signals R D qs db hok hwin with ⟨p, hsig, _, _⟩
    rw [hsig, List.countP_append]
    have hjunk : (db.signals.filter p).countP
        (fun s => (s.id == db.nextSignalId + i) && matchesTo R D s) = 0 := by
      rw [List.countP_eq_zero]
      intro s hs
      have hlt := hwf.2 s (List.mem_of_mem_filter hs)
      simp only [Bool.and_eq_true, beq_iff_eq]
      intro hcon
      rcases hcon with ⟨h1, _⟩
      omega
    have hco : ∀ s ∈ sentRows R D db.nextSignalId qs,
        ((s.id == db.nextSignalId + i) && matchesTo R D s)
          = (s.id == db.nextSignalId + i) := by
      intro s hs
      rw [sentRows_matches R D qs db.nextSignalId s hs, Bool.and_true]
    rw [hjunk, countP_congr_mem hco, sentRows_countP R D qs db.nextSignalId i hi]
  · intro k
    exact iterFetch_of_no_match R D _ hD (dropDelivered_no_match R D _) k

/-- Two further sends addressed to `P` in room `042517`. -/
def exSends : List SendReq :=
  [SendReq.mk (.str "H") (.str "offer") (.str "a") 103 1,
   SendReq.mk (.str "H") (.str "candidate") (.arr [.num 1, .num 2]) 104 3]

/-- Witness for C1: two sends to `P` on top of `exOpenDB`, then fetches. -/
theorem c1_at_most_once_delivery_witness :
    get_signals "042517" (some "P") (runSends "042517" "P" exOpenDB exSends)
      = (.ok ((rowsFor "042517" "P" (runSends "042517" "P" exOpenDB exSends)).map viewMsg),
         dropDelivered "042517" "P" (runSends "042517" "P" exOpenDB exSends))
    ∧ (rowsFor "042517" "P" (runSends "042517" "P" exOpenDB exSends)).countP
        (fun s => s.id == exOpenDB.nextSignalId + 0) = 1
    ∧ (rowsFor "042517" "P" (runSends "042517" "P" exOpenDB exSends)).countP
        (fun s => s.id == exOpenDB.nextSignalId + 1) = 1
    ∧ iterFetch "042517" (some "P") 2
        (dropDelivered "042517" "P" (runSends "042517" "P" exOpenDB exSends))
      = (List.replicate 2 (FetchResult.ok []),
         dropDelivered "042517" "P" (runSends "042517" "P" exOpenDB exSends)) :=
  ⟨(c1_at_most_once_delivery "042517" "P" exOpenDB exSends (by decide) ⟨by decide, by decide⟩
      (by decide) (by decide)).1,
   (c1_at_most_once_delivery "042517" "P" exOpenDB exSends (by decide) ⟨by decide, by decide⟩
      (by decide) (by decide)).2.1 0 (by decide),
   (c1_at_most_once_delivery "042517" "P" exOpenDB exSends (by decide) ⟨by decide, by decide⟩
      (by decide) (by decide)).2.1 1 (by decide),
   (c1_at_most_once_delivery "042517" "P" exOpenDB exSends (by decide) ⟨by decide, by decide⟩
      (by decide) (by decide)).2.2 2⟩

/-- C2: `Fetch` returns the pending signals of `(R, D)` in `created_at`
order with ties broken by the insertion-sequence id (the selected rows are a
permutation of the pending rows, arranged in the strict — hence
deterministic — lexicographic `(created_at, id)` order); in particular three
signals sent to `D` in order at nondecreasing timestamps, into a store with
nothing pending for `D`, are fetched in exactly that order. -/
theorem c2_fetch_ordered (R D : String) (db db0 : DB) (q1 q2 q3 : SendReq)
    (hD : D ≠ "") (hwf : db.signals.Pairwise (fun a b => a.id < b.id))
    (hwf0 : SignalsWF db0)
    (hemp0 : db0.signals.filter (matchesTo R D) = [])
    (hok1 : okReq q1 = true) (hok2 : okReq q2 = true) (hok3 : okReq q3 = true)
    (h12 : q1.now ≤ q2.now) (h23 : q2.now ≤ q3.now) (h13 : q3.now ≤ q1.now + 600) :
    (rowsFor R D db).Pairwise lexLT
    ∧ (rowsFor R D db).Perm (db.signals.filter (matchesTo R D))
    ∧ get_signals R (some D) (runSends R D db0 [q1, q2, q3])
      = (.ok [viewMsg (sentRow R D db0.nextSignalId q1),
              viewMsg (sentRow R D (db0.nextSignalId + 1) q2),
              viewMsg (sentRow R D (db0.nextSignalId + 2) q3)],
         dropDelivered R D (runSends R D db0 [q1, q2, q3])) := by
  have hok : ∀ q ∈ [q1, q2, q3], okReq q = true := by
    intro q hq
    rcases hq with _ | ⟨_, _ | ⟨_, _ | ⟨_, h⟩⟩⟩
    · exact hok1
    · exact hok2
    · exact hok3
    · exact absurd (by assumption) (List.not_mem_nil q)
  have hwin : List.Pairwise (fun a b : SendReq => b.now ≤ a.now + 600) [q1, q2, q3] := by
    refine List.pairwise_cons.mpr ⟨?_, List.pairwise_cons.mpr ⟨?_, ?_⟩⟩
    · intro q hq
      rcases hq with _ | ⟨_, _ | ⟨_, h⟩⟩
      · omega
      · omega
      · exact absurd (by assumption) (List.not_mem_nil q)
    · intro q hq
      rcases hq with _ | ⟨_, h⟩
      · omega
      · exact absurd (by assumption) (List.not_mem_nil q)
    · exact List.pairwise_singleton _ _
  refine ⟨orderByCreatedAt_pairwise_lex _
      (List.Pairwise.sublist (List.filter_sublist db.signals) hwf),
    rowsFor_perm R D db, ?_⟩
  rcases runSends_signals R D [q1, q2, q3] db0 hok hwin with ⟨p, hsig, _, _⟩
  have hwf1 := runSends_wf R D [q1, q2, q3] db0 hok hwin hwf0
  have hfil : (runSends R D db0 [q1, q2, q3]).signals.filter (matchesTo R D)
      = sentRows R D db0.nextSignalId [q1, q2, q3] := by
    rw [hsig, List.filter_append]
    have hjunk : (db0.signals.filter p).filter (matchesTo R D) = [] := by
      rw [List.filter_filter, List.filter_eq_nil_iff]
      intro s hs
      have hm : matchesTo R D s = false := by
        have := List.filter_eq_nil_iff.mp hemp0 s hs
        revert this
        cases matchesTo R D s <;> simp
      rw [hm]
      simp
    rw [hjunk, List.nil_append]
    refine List.filter_eq_self.mpr ?_
    exact sentRows_matches R D [q1, q2, q3] db0.nextSignalId
  have hsorted : (sentRows R D db0.nextSignalId [q1, q2, q3]).Pairwise
      (fun a b => a.created_at ≤ b.created_at) := by
    refine List.pairwise_cons.mpr ⟨?_, List.pairwise_cons.mpr ⟨?_, ?_⟩⟩
    · intro s hs
      rcases hs with _ | ⟨_, _ | ⟨_, h⟩⟩
      · show q1.now ≤ q2.now
        omega
      · show q1.now ≤ q3.now
        omega
      · exact absurd (by assumption) (List.not_mem_nil s)
    · intro s hs
      rcases hs with _ | ⟨_, h⟩
      · show q2.now ≤ q3.now
        omega
      · exact absurd (by assumption) (List.not_mem_nil s)
    · exact List.pairwise_singleton _ _
  have hrows : rowsFor R D (runSends R D db0 [q1, q2, q3])
      = sentRows R D db0.nextSignalId [q1, q2, q3] := by
    unfold rowsFor
    rw [hfil]
    exact orderByCreatedAt_of_sorted _ hsorted
  rw [get_signals_run R D _ hD hwf1.1, hrows]
  rfl

/-- Two signals for `P` in room `100000` sharing one timestamp: the fetch
order among them is decided by the insertion sequence. -/
def exTieDB : DB :=
  DB.mk [] []
    [SignalRow.mk 1 "100000" (.str "H") (.str "P") (.str "t") (dumps (.num 1)) 50,
     SignalRow.mk 2 "100000" (.str "H") (.str "P") (.str "t") (dumps (.num 2)) 50] 3

/-- Witness for C2: three sends into the freshly created room `100000`. -/
theorem c2_fetch_ordered_witness :
    (rowsFor "100000" "P" exTieDB).Pairwise lexLT
    ∧ (rowsFor "100000" "P" exTieDB).Perm
        (exTieDB.signals.filter (matchesTo "100000" "P"))
    ∧ get_signals "100000" (some "P")
        (runSends "100000" "P" exHostDB
          [SendReq.mk (.str "H") (.str "offer") (.str "s1") 10 1,
           SendReq.mk (.str "H") (.str "answer") (.str "s2") 10 2,
           SendReq.mk (.str "H") (.str "candidate") (.str "s3") 11 3])
      = (.ok [viewMsg (sentRow "100000" "P" exHostDB.nextSignalId
                (SendReq.mk (.str "H") (.str "offer") (.str "s1") 10 1)),
              viewMsg (sentRow "100000" "P" (exHostDB.nextSignalId + 1)
                (SendReq.mk (.str "H") (.str "answer") (.str "s2") 10 2)),
              viewMsg (sentRow "100000" "P" (exHostDB.nextSignalId + 2)
                (SendReq.mk (.str "H") (.str "candidate") (.str "s3") 11 3))],
         dropDelivered "100000" "P"
           (runSends "100000" "P" exHostDB
             [SendReq.mk (.str "H") (.str "offer") (.str "s1") 10 1,
              SendReq.mk (.str "H") (.str "answer") (.str "s2") 10 2,
              SendReq.mk (.str "H") (.str "candidate") (.str "s3") 11 3])) :=
  c2_fetch_ordered "100000" "P" exTieDB exHostDB
    (SendReq.mk (.str "H") (.str "offer") (.str "s1") 10 1)
    (SendReq.mk (.str "H") (.str "answer") (.str "s2") 10 2)
    (SendReq.mk (.str "H") (.str "candidate") (.str "s3") 11 3)
    (by decide) (by decide) ⟨by decide, by decide⟩ rfl
    (by decide) (by decide) (by decide) (by decide) (by decide) (by decide)

/-! ## The codec round-trip: `loads` inverts `dumps` -/

/-- A decimal digit character. -/
def isDigitCh (c : Char) : Bool := 48 ≤ c.toNat && c.toNat ≤ 57

/-- Input that cannot extend a just-parsed number: empty, or headed by a
character that is neither a digit nor `.`, `e`, `E`.  Every delimiter
`json.dumps` emits after a value (`,`, `]`, the closing brace, end of input)
qualifies. -/
def numBoundary : List Char → Bool
  | [] => true
  | c :: _ => !(isDigitCh c || c == '.' || c == 'e' || c == 'E')

theorem wsSkip_cons_of_neg {c : Char} (t : List Char) (h : isWsCh c = false) :
    wsSkip (c :: t) = c :: t := by
  show (if isWsCh c = true then wsSkip t else c :: t) = c :: t
  rw [h]
  rfl

theorem wsSkip_cons_of_pos {c : Char} (t : List Char) (h : isWsCh c = true) :
    wsSkip (c :: t) = wsSkip t := by
  show (if isWsCh c = true then wsSkip t else c :: t) = wsSkip t
  rw [h]
  rfl

theorem char_bounds (c : Char) :
    c.toNat < 55296 ∨ 57344 ≤ c.toNat ∧ c.toNat < 1114112 := by
  rcases c.valid with h | h
  · exact Or.inl h
  · exact Or.inr h

theorem digit_char_toNat : ∀ k, k < 10 → (Char.ofNat (48 + k)).toNat = 48 + k := by
  decide

theorem digit_char_facts : ∀ k, k < 10 →
    isDigitCh (Char.ofNat (48 + k)) = true
    ∧ isWsCh (Char.ofNat (48 + k)) = false
    ∧ Char.ofNat (48 + k) ≠ 'n' ∧ Char.ofNat (48 + k) ≠ 't'
    ∧ Char.ofNat (48 + k) ≠ 'f' ∧ Char.ofNat (48 + k) ≠ '"'
    ∧ Char.ofNat (48 + k) ≠ '[' ∧ Char.ofNat (48 + k) ≠ lbrace
    ∧ Char.ofNat (48 + k) ≠ '-' := by
  decide

theorem natDigsAux_append (n : Nat) : ∀ acc : List Char,
    natDigsAux n acc = natDigsAux n [] ++ acc := by
  induction n using Nat.strong_induction_on with
  | _ n ih =>
    intro acc
    by_cases h : n < 10
    · conv_lhs => rw [natDigsAux]
      conv_rhs => rw [natDigsAux]
      rw [if_pos h, if_pos h]
      rfl
    · conv_lhs => rw [natDigsAux]
      conv_rhs => rw [natDigsAux]
      rw [if_neg h, if_neg h,
        ih (n / 10) (by omega), ih (n / 10) (by omega) [Char.ofNat (48 + n % 10)],
        List.append_assoc]
      rfl

theorem natDigs_unfold (n : Nat) :
    natDigsAux n [] = (if n < 10 then [] else natDigsAux (n / 10) [])
      ++ [Char.ofNat (48 + n % 10)] := by
  by_cases h : n < 10
  · conv_lhs => rw [natDigsAux]
    rw [if_pos h, if_pos h, List.nil_append, Nat.mod_eq_of_lt h]
  · conv_lhs => rw [natDigsAux]
    rw [if_neg h, if_neg h, natDigsAux_append (n / 10)]

theorem natDigs_ne_nil (n : Nat) : natDigsAux n [] ≠ [] := by
  rw [natDigs_unfold]
  intro h
  exact absurd (List.append_eq_nil.mp h).2 (by simp)

theorem natDigs_digits (n : Nat) : ∀ c ∈ natDigsAux n [], isDigitCh c = true := by
  induction n using Nat.strong_induction_on with
  | _ n ih =>
    rw [natDigs_unfold]
    intro c hc
    rcases List.mem_append.mp hc with h | h
    · by_cases h10 : n < 10
      · rw [if_pos h10] at h
        exact absurd h (List.not_mem_nil c)
      · rw [if_neg h10] at h
        exact ih (n / 10) (by omega) c h
    · rw [List.mem_singleton.mp h]
      exact (digit_char_facts (n % 10) (Nat.mod_lt _ (by omega))).1

theorem digsVal_natDigs (n : Nat) : digsVal (natDigsAux n []) = n := by
  induction n using Nat.strong_induction_on with
  | _ n ih =>
    rw [natDigs_unfold]
    unfold digsVal
    rw [List.foldl_append, List.foldl_cons, List.foldl_nil,
      digit_char_toNat (n % 10) (Nat.mod_lt _ (by omega))]
    by_cases h : n < 10
    · rw [if_pos h, List.foldl_nil]
      omega
    · rw [if_neg h]
      have := ih (n / 10) (by omega)
      unfold digsVal at this
      rw [this]
      omega

theorem digSpan_boundary (cs : List Char) (h : numBoundary cs = true) :
    digSpan cs = ([], cs) := by
  match cs with
  | [] => rfl
  | c :: t =>
    unfold numBoundary at h
    rw [Bool.not_eq_true'] at h
    rcases Bool.or_eq_false_iff.mp h with ⟨h1, _⟩
    rcases Bool.or_eq_false_iff.mp h1 with ⟨h2, _⟩
    rcases Bool.or_eq_false_iff.mp h2 with ⟨h3, _⟩
    unfold digSpan
    rw [show (decide (48 ≤ c.toNat) && decide (c.toNat ≤ 57)) = false from h3]
    rfl

theorem digSpan_run (ds : List Char) (hds : ∀ c ∈ ds, isDigitCh c = true)
    (rest : List Char) (hrest : digSpan rest = ([], rest)) :
    digSpan (ds ++ rest) = (ds, rest) := by
  induction ds with
  | nil => rw [List.nil_append]; exact hrest
  | cons d tl ih =>
    have hd : isDigitCh d = true := hds d (List.mem_cons_self d tl)
    rw [List.cons_append]
    unfold digSpan
    rw [show (decide (48 ≤ d.toNat) && decide (d.toNat ≤ 57)) = true from hd,
      if_pos rfl]
    rw [ih (fun x hx => hds x (List.mem_cons_of_mem d hx))]

theorem natDigs_cons (n : Nat) :
    ∃ c t, natDigsAux n [] = c :: t ∧ isDigitCh c = true := by
  match h : natDigsAux n [] with
  | [] => exact absurd h (natDigs_ne_nil n)
  | c :: t =>
    refine ⟨c, t, rfl, ?_⟩
    exact natDigs_digits n c (h ▸ List.mem_cons_self c t)

theorem numStop_of_boundary (cs : List Char) (h : numBoundary cs = true) :
    numStop cs = true := by
  match cs with
  | [] => rfl
  | c :: t =>
    unfold numBoundary at h
    rw [Bool.not_eq_true'] at h
    rcases Bool.or_eq_false_iff.mp h with ⟨h1, hE⟩
    rcases Bool.or_eq_false_iff.mp h1 with ⟨h2, he⟩
    rcases Bool.or_eq_false_iff.mp h2 with ⟨_, hdot⟩
    show (!(c == '.' || c == 'e' || c == 'E')) = true
    rw [hdot, he, hE]
    rfl

theorem digitCh_ne_minus {c : Char} (h : isDigitCh c = true) : ¬(c = '-') := by
  intro hcon
  rw [hcon] at h
  exact absurd h (by decide)

theorem intParse_intDigs (i : Int) (rest : List Char)
    (h : numBoundary rest = true) :
    intParse (intDigs i ++ rest) = some (i, rest) := by
  have hspan : digSpan (natDigsAux i.natAbs [] ++ rest) = (natDigsAux i.natAbs [], rest) :=
    digSpan_run _ (natDigs_digits i.natAbs) rest (digSpan_boundary rest h)
  by_cases hneg : i < 0
  · have harg : intDigs i ++ rest = '-' :: (natDigsAux i.natAbs [] ++ rest) := by
      unfold intDigs
      rw [if_pos hneg]
      rfl
    rw [harg]
    simp only [intParse]
    rw [if_pos trivial]
    rw [hspan]
    rw [if_neg (by simpa [List.isEmpty_iff] using natDigs_ne_nil i.natAbs)]
    rw [if_pos (numStop_of_boundary rest h)]
    refine congrArg some (Prod.ext ?_ rfl)
    show -(digsVal (natDigsAux i.natAbs []) : Int) = i
    rw [digsVal_natDigs]
    omega
  · rcases natDigs_cons i.natAbs with ⟨c, t, hct, hc⟩
    have harg : intDigs i ++ rest = c :: (t ++ rest) := by
      unfold intDigs
      rw [if_neg hneg, hct]
      rfl
    rw [harg]
    simp only [intParse]
    rw [if_neg (digitCh_ne_minus hc)]
    rw [show c :: (t ++ rest) = (c :: t) ++ rest from rfl, ← hct, hspan]
    rw [if_neg (by simpa [List.isEmpty_iff] using natDigs_ne_nil i.natAbs)]
    rw [if_pos (numStop_of_boundary rest h)]
    refine congrArg some (Prod.ext ?_ rfl)
    show (digsVal (natDigsAux i.natAbs []) : Int) = i
    rw [digsVal_natDigs]
    omega

theorem hexNib_hexDig : ∀ k, k < 16 → hexNib (hexDig k) = some k := by
  decide

theorem hexQuad_uEsc_digits (m : Nat) (h : m < 65536) :
    hexQuad (hexDig (m / 4096 % 16)) (hexDig (m / 256 % 16))
      (hexDig (m / 16 % 16)) (hexDig (m % 16)) = some m := by
  unfold hexQuad
  rw [hexNib_hexDig _ (Nat.mod_lt _ (by omega)), hexNib_hexDig _ (Nat.mod_lt _ (by omega)),
    hexNib_hexDig _ (Nat.mod_lt _ (by omega)), hexNib_hexDig _ (Nat.mod_lt _ (by omega))]
  show some (((m / 4096 % 16 * 16 + m / 256 % 16) * 16 + m / 16 % 16) * 16 + m % 16) = some m
  refine congrArg some ?_
  omega

theorem unEscU_uEsc_tail (m : Nat) (hm : m < 65536) (hval : m < 55296 ∨ 57344 ≤ m)
    (rest : List Char) :
    unEscU (hexDig (m / 4096 % 16) :: hexDig (m / 256 % 16)
      :: hexDig (m / 16 % 16) :: hexDig (m % 16) :: rest)
      = some (Char.ofNat m, rest) := by
  simp only [unEscU]
  rw [hexQuad_uEsc_digits m hm]
  rcases hval with h | h
  · simp only [decide_eq_false (by omega : ¬55296 ≤ m),
      decide_eq_false (by omega : ¬56320 ≤ m), Bool.false_and,
      Bool.false_eq_true, if_false]
  · simp only [decide_eq_false (by omega : ¬m < 56320),
      decide_eq_false (by omega : ¬m < 57344), Bool.and_false,
      Bool.false_eq_true, if_false]


theorem unEscU_highSurr (hi : Nat) (hb : hi < 65536) (h1 : 55296 ≤ hi)
    (h2 : hi < 56320) (rest : List Char) :
    unEscU (hexDig (hi / 4096 % 16) :: hexDig (hi / 256 % 16)
      :: hexDig (hi / 16 % 16) :: hexDig (hi % 16) :: rest) = unEscPair hi rest := by
  simp only [unEscU]
  rw [hexQuad_uEsc_digits hi hb]
  simp only [decide_eq_true h1, decide_eq_true h2, Bool.true_and, if_true]

theorem unEscPair_low (hi lo : Nat) (h1 : 56320 ≤ lo) (h2 : lo < 57344)
    (hb : lo < 65536) (rest : List Char) :
    unEscPair hi ('\\' :: 'u' :: hexDig (lo / 4096 % 16) :: hexDig (lo / 256 % 16)
      :: hexDig (lo / 16 % 16) :: hexDig (lo % 16) :: rest)
      = some (Char.ofNat (65536 + (hi - 55296) * 1024 + (lo - 56320)), rest) := by
  simp only [unEscPair, if_pos trivial]
  rw [hexQuad_uEsc_digits lo hb]
  simp only [decide_eq_true h1, decide_eq_true h2, Bool.true_and, if_true]

theorem unEscU_pair_tail (m : Nat) (hm : 65536 ≤ m) (hv : m < 1114112)
    (rest : List Char) :
    unEscU (hexDig ((55296 + (m - 65536) / 1024) / 4096 % 16)
      :: hexDig ((55296 + (m - 65536) / 1024) / 256 % 16)
      :: hexDig ((55296 + (m - 65536) / 1024) / 16 % 16)
      :: hexDig ((55296 + (m - 65536) / 1024) % 16)
      :: ('\\' :: 'u' :: hexDig ((56320 + (m - 65536) % 1024) / 4096 % 16)
        :: hexDig ((56320 + (m - 65536) % 1024) / 256 % 16)
        :: hexDig ((56320 + (m - 65536) % 1024) / 16 % 16)
        :: hexDig ((56320 + (m - 65536) % 1024) % 16) :: rest))
      = some (Char.ofNat m, rest) := by
  have hdiv : (m - 65536) / 1024 < 1024 := by
    have h2 : m - 65536 < 1048576 := by omega
    omega
  have hmod : (m - 65536) % 1024 < 1024 := Nat.mod_lt _ (by omega)
  rw [unEscU_highSurr (55296 + (m - 65536) / 1024) (by omega) (by omega) (by omega)]
  rw [unEscPair_low (55296 + (m - 65536) / 1024) (56320 + (m - 65536) % 1024)
    (by omega) (by omega) (by omega)]
  have harith : 65536 + (55296 + (m - 65536) / 1024 - 55296) * 1024
      + (56320 + (m - 65536) % 1024 - 56320) = m := by
    have h3 := Nat.div_add_mod (m - 65536) 1024
    omega
  rw [harith]

theorem strBody_backslash (f : Nat) (acc tail : List Char) :
    strBody (f + 1) acc ('\\' :: tail)
      = (match unEsc tail with
         | some p => strBody f (p.1 :: acc) p.2
         | none => none) := by
  simp only [strBody]
  rw [if_neg (by decide : ¬('\\' : Char) = '"'), if_pos trivial]

theorem escChar_ranges (c : Char) (h1 : ¬c = '"') (h2 : ¬c = '\\')
    (h3 : ¬c = Char.ofNat 8) (h4 : ¬c = Char.ofNat 9) (h5 : ¬c = Char.ofNat 10)
    (h6 : ¬c = Char.ofNat 12) (h7 : ¬c = Char.ofNat 13) :
    escChar c =
      (if c.toNat < 32 then uEsc c.toNat
       else if c.toNat < 127 then [c]
       else if c.toNat < 65536 then uEsc c.toNat
       else uEsc (55296 + (c.toNat - 65536) / 1024)
         ++ uEsc (56320 + (c.toNat - 65536) % 1024)) := by
  unfold escChar
  rw [if_neg h1, if_neg h2, if_neg h3, if_neg h4, if_neg h5, if_neg h6, if_neg h7]

theorem unEsc_u (tail : List Char) : unEsc ('u' :: tail) = unEscU tail := by
  simp only [unEsc]
  rw [if_pos trivial]

theorem strBody_uEsc_step (c : Char) (f : Nat) (acc rest : List Char)
    (hm : c.toNat < 65536) (hval : c.toNat < 55296 ∨ 57344 ≤ c.toNat) :
    strBody (f + 1) acc ((uEsc c.toNat ++ rest)) = strBody f (c :: acc) rest := by
  show strBody (f + 1) acc ('\\' :: 'u'
    :: hexDig (c.toNat / 4096 % 16) :: hexDig (c.toNat / 256 % 16)
    :: hexDig (c.toNat / 16 % 16) :: hexDig (c.toNat % 16) :: rest) = _
  rw [strBody_backslash, unEsc_u, unEscU_uEsc_tail c.toNat hm hval rest]
  simp only [Char.ofNat_toNat]

theorem strBody_lit_step (c : Char) (f : Nat) (acc rest : List Char)
    (h1 : ¬c = '"') (h2 : ¬c = '\\') (h8 : ¬c.toNat < 32) :
    strBody (f + 1) acc (c :: rest) = strBody f (c :: acc) rest := by
  simp only [strBody]
  rw [if_neg h1, if_neg h2, if_neg h8]

theorem strBody_pair_step (c : Char) (f : Nat) (acc rest : List Char)
    (hm : 65536 ≤ c.toNat) :
    strBody (f + 1) acc (uEsc (55296 + (c.toNat - 65536) / 1024)
      ++ uEsc (56320 + (c.toNat - 65536) % 1024) ++ rest)
      = strBody f (c :: acc) rest := by
  have hv : c.toNat < 1114112 := by
    rcases char_bounds c with h | h
    · omega
    · exact h.2
  show strBody (f + 1) acc ('\\' :: 'u'
    :: hexDig ((55296 + (c.toNat - 65536) / 1024) / 4096 % 16)
    :: hexDig ((55296 + (c.toNat - 65536) / 1024) / 256 % 16)
    :: hexDig ((55296 + (c.toNat - 65536) / 1024) / 16 % 16)
    :: hexDig ((55296 + (c.toNat - 65536) / 1024) % 16)
    :: ('\\' :: 'u'
      :: hexDig ((56320 + (c.toNat - 65536) % 1024) / 4096 % 16)
      :: hexDig ((56320 + (c.toNat - 65536) % 1024) / 256 % 16)
      :: hexDig ((56320 + (c.toNat - 65536) % 1024) / 16 % 16)
      :: hexDig ((56320 + (c.toNat - 65536) % 1024) % 16) :: rest)) = _
  rw [strBody_backslash, unEsc_u, unEscU_pair_tail c.toNat hm hv rest]
  simp only [Char.ofNat_toNat]

theorem strBody_short_quote (f : Nat) (acc rest : List Char) :
    strBody (f + 1) acc ('\\' :: '"' :: rest) = strBody f ('"' :: acc) rest := by
  rw [strBody_backslash]
  simp only [unEsc, escSimple]
  rw [if_neg (by decide : ¬('"' : Char) = 'u')]
  rfl

theorem strBody_short_backslash (f : Nat) (acc rest : List Char) :
    strBody (f + 1) acc ('\\' :: '\\' :: rest) = strBody f ('\\' :: acc) rest := by
  rw [strBody_backslash]
  simp only [unEsc, escSimple]
  rw [if_neg (by decide : ¬('\\' : Char) = 'u')]
  rfl

theorem strBody_short_b (f : Nat) (acc rest : List Char) :
    strBody (f + 1) acc ('\\' :: 'b' :: rest) = strBody f (Char.ofNat 8 :: acc) rest := by
  rw [strBody_backslash]
  simp only [unEsc, escSimple]
  rw [if_neg (by decide : ¬('b' : Char) = 'u')]
  rfl

theorem strBody_short_t (f : Nat) (acc rest : List Char) :
    strBody (f + 1) acc ('\\' :: 't' :: rest) = strBody f (Char.ofNat 9 :: acc) rest := by
  rw [strBody_backslash]
  simp only [unEsc, escSimple]
  rw [if_neg (by decide : ¬('t' : Char) = 'u')]
  rfl

theorem strBody_short_n (f : Nat) (acc rest : List Char) :
    strBody (f + 1) acc ('\\' :: 'n' :: rest) = strBody f (Char.ofNat 10 :: acc) rest := by
  rw [strBody_backslash]
  simp only [unEsc, escSimple]
  rw [if_neg (by decide : ¬('n' : Char) = 'u')]
  rfl

theorem strBody_short_f (f : Nat) (acc rest : List Char) :
    strBody (f + 1) acc ('\\' :: 'f' :: rest) = strBody f (Char.ofNat 12 :: acc) rest := by
  rw [strBody_backslash]
  simp only [unEsc, escSimple]
  rw [if_neg (by decide : ¬('f' : Char) = 'u')]
  rfl

theorem strBody_short_r (f : Nat) (acc rest : List Char) :
    strBody (f + 1) acc ('\\' :: 'r' :: rest) = strBody f (Char.ofNat 13 :: acc) rest := by
  rw [strBody_backslash]
  simp only [unEsc, escSimple]
  rw [if_neg (by decide : ¬('r' : Char) = 'u')]
  rfl

theorem strBody_escChar (c : Char) (f : Nat) (acc rest : List Char) :
    strBody (f + 1) acc (escChar c ++ rest) = strBody f (c :: acc) rest := by
  by_cases h1 : c = '"'
  · subst h1
    exact strBody_short_quote f acc rest
  by_cases h2 : c = '\\'
  · subst h2
    exact strBody_short_backslash f acc rest
  by_cases h3 : c = Char.ofNat 8
  · subst h3
    exact strBody_short_b f acc rest
  by_cases h4 : c = Char.ofNat 9
  · subst h4
    exact strBody_short_t f acc rest
  by_cases h5 : c = Char.ofNat 10
  · subst h5
    exact strBody_short_n f acc rest
  by_cases h6 : c = Char.ofNat 12
  · subst h6
    exact strBody_short_f f acc rest
  by_cases h7 : c = Char.ofNat 13
  · subst h7
    exact strBody_short_r f acc rest
  rw [escChar_ranges c h1 h2 h3 h4 h5 h6 h7]
  by_cases h8 : c.toNat < 32
  · rw [if_pos h8]
    exact strBody_uEsc_step c f acc rest (by omega) (Or.inl (by omega))
  by_cases h9 : c.toNat < 127
  · rw [if_neg h8, if_pos h9]
    exact strBody_lit_step c f acc rest h1 h2 h8
  by_cases h10 : c.toNat < 65536
  · rw [if_neg h8, if_neg h9, if_pos h10]
    refine strBody_uEsc_step c f acc rest h10 ?_
    rcases char_bounds c with h | h
    · exact Or.inl h
    · exact Or.inr h.1
  · rw [if_neg h8, if_neg h9, if_neg h10]
    exact strBody_pair_step c f acc rest (by omega)

theorem strBody_escStr (s : List Char) : ∀ (fuel : Nat) (acc rest : List Char),
    s.length < fuel →
    strBody fuel acc (escStr s ++ '"' :: rest)
      = some (String.mk (acc.reverse ++ s), rest) := by
  induction s with
  | nil =>
    intro fuel acc rest hf
    match fuel, hf with
    | f + 1, _ =>
      show strBody (f + 1) acc ('"' :: rest) = _
      simp only [strBody]
      rw [if_pos trivial, List.append_nil]
  | cons c t ih =>
    intro fuel acc rest hf
    match fuel, hf with
    | f + 1, hf =>
      rw [show escStr (c :: t) = escChar c ++ escStr t from rfl, List.append_assoc,
        strBody_escChar, ih f (c :: acc) rest (by simpa using hf)]
      refine congrArg some (Prod.ext ?_ rfl)
      show String.mk ((c :: acc).reverse ++ t) = String.mk (acc.reverse ++ c :: t)
      rw [List.reverse_cons, List.append_assoc]
      rfl

theorem strBody_dumpsStr (s : String) (fuel : Nat) (rest : List Char)
    (hf : s.data.length < fuel) :
    strBody fuel [] (escStr s.data ++ '"' :: rest) = some (s, rest) := by
  rw [strBody_escStr s.data fuel [] rest hf]
  rfl

theorem escChar_length_pos (c : Char) : 1 ≤ (escChar c).length := by
  unfold escChar
  split
  · simp
  split
  · simp
  split
  · simp
  split
  · simp
  split
  · simp
  split
  · simp
  split
  · simp
  split
  · simp [uEsc]
  split
  · simp
  split
  · simp [uEsc]
  · simp [uEsc]

theorem escStr_length_ge (s : List Char) : s.length ≤ (escStr s).length := by
  induction s with
  | nil => exact Nat.le_refl 0
  | cons c t ih =>
    show t.length + 1 ≤ (escChar c ++ escStr t).length
    rw [List.length_append]
    have := escChar_length_pos c
    omega

theorem jsonVal_succ (f : Nat) (cs : List Char) :
    jsonVal (f + 1) cs
      = (match wsSkip cs with
         | [] => none
         | c :: rest =>
           if c = 'n' then
             match rest with
             | 'u' :: 'l' :: 'l' :: r => some (.null, r)
             | _ => none
           else if c = 't' then
             match rest with
             | 'r' :: 'u' :: 'e' :: r => some (.bool true, r)
             | _ => none
           else if c = 'f' then
             match rest with
             | 'a' :: 'l' :: 's' :: 'e' :: r => some (.bool false, r)
             | _ => none
           else if c = '"' then
             match strBody (rest.length + 1) [] rest with
             | some (s, rest2) => some (.str s, rest2)
             | none => none
           else if c = '[' then
             match wsSkip rest with
             | [] => none
             | c2 :: cs2 =>
               if c2 = ']' then some (.arr [], cs2)
               else
                 match jsonItems f (c2 :: cs2) with
                 | some (xs, rest2) => some (.arr xs, rest2)
                 | none => none
           else if c = lbrace then
             match wsSkip rest with
             | [] => none
             | c2 :: cs2 =>
               if c2 = rbrace then some (.obj [], cs2)
               else
                 match jsonMembers f (c2 :: cs2) with
                 | some (ms, rest2) => some (.obj ms, rest2)
                 | none => none
           else
             match intParse (c :: rest) with
             | some (n, rest2) => some (.num n, rest2)
             | none => none) := rfl

theorem jsonItems_succ (f : Nat) (cs : List Char) :
    jsonItems (f + 1) cs
      = (match jsonVal f cs with
         | none => none
         | some (v, rest) =>
           match wsSkip rest with
           | [] => none
           | c :: rest2 =>
             if c = ',' then
               match jsonItems f (wsSkip rest2) with
               | some (vs, rest3) => some (v :: vs, rest3)
               | none => none
             else if c = ']' then some ([v], rest2)
             else none) := rfl

theorem jsonMembers_succ (f : Nat) (cs : List Char) :
    jsonMembers (f + 1) cs
      = (match wsSkip cs with
         | [] => none
         | c :: rest =>
           if c = '"' then
             match strBody (rest.length + 1) [] rest with
             | none => none
             | some (k, rest1) =>
               match wsSkip rest1 with
               | [] => none
               | c1 :: rest2 =>
                 if c1 = ':' then
                   match jsonVal f (wsSkip rest2) with
                   | none => none
                   | some (v, rest3) =>
                     match wsSkip rest3 with
                     | [] => none
                     | c2 :: rest4 =>
                       if c2 = ',' then
                         match jsonMembers f (wsSkip rest4) with
                         | some (ms, rest5) => some ((k, v) :: ms, rest5)
                         | none => none
                       else if c2 = rbrace then some ([(k, v)], rest4)
                       else none
                 else none
           else none) := rfl

theorem digitCh_bounds {c : Char} (h : isDigitCh c = true) :
    48 ≤ c.toNat ∧ c.toNat ≤ 57 := by
  unfold isDigitCh at h
  rcases Bool.and_eq_true _ _ |>.mp h with ⟨h1, h2⟩
  exact ⟨of_decide_eq_true h1, of_decide_eq_true h2⟩

theorem char_ne_of_toNat_ne {c d : Char} (h : ¬c.toNat = d.toNat) : ¬c = d := by
  intro hcon
  exact h (congrArg Char.toNat hcon)

theorem isWsCh_false_of_ne {c : Char} (h1 : ¬c = ' ') (h2 : ¬c = '\t')
    (h3 : ¬c = '\n') (h4 : ¬c = '\r') : isWsCh c = false := by
  unfold isWsCh
  rw [beq_eq_false_iff_ne.mpr h1, beq_eq_false_iff_ne.mpr h2,
    beq_eq_false_iff_ne.mpr h3, beq_eq_false_iff_ne.mpr h4]
  rfl

theorem digitCh_ne {c : Char} (h : isDigitCh c = true) (d : Char)
    (hd : isDigitCh d = false) : ¬c = d := by
  intro hcon
  rw [hcon] at h
  rw [h] at hd
  exact absurd hd (by simp)

theorem digitCh_head_facts {c : Char} (h : isDigitCh c = true) :
    isWsCh c = false ∧ ¬c = 'n' ∧ ¬c = 't' ∧ ¬c = 'f' ∧ ¬c = '"'
    ∧ ¬c = '[' ∧ ¬c = lbrace ∧ ¬c = ']' ∧ ¬c = rbrace ∧ ¬c = ',' :=
  ⟨isWsCh_false_of_ne (digitCh_ne h ' ' (by decide)) (digitCh_ne h '\t' (by decide))
    (digitCh_ne h '\n' (by decide)) (digitCh_ne h '\r' (by decide)),
   digitCh_ne h 'n' (by decide), digitCh_ne h 't' (by decide),
   digitCh_ne h 'f' (by decide), digitCh_ne h '"' (by decide),
   digitCh_ne h '[' (by decide), digitCh_ne h lbrace (by decide),
   digitCh_ne h ']' (by decide), digitCh_ne h rbrace (by decide),
   digitCh_ne h ',' (by decide)⟩

theorem intDigs_head (i : Int) :
    ∃ c t, intDigs i = c :: t
      ∧ isWsCh c = false ∧ ¬c = 'n' ∧ ¬c = 't' ∧ ¬c = 'f' ∧ ¬c = '"'
      ∧ ¬c = '[' ∧ ¬c = lbrace ∧ ¬c = ']' ∧ ¬c = rbrace ∧ ¬c = ',' := by
  by_cases hneg : i < 0
  · refine ⟨'-', natDigsAux i.natAbs [], ?_, by decide, by decide, by decide,
      by decide, by decide, by decide, by decide, by decide, by decide, by decide⟩
    unfold intDigs
    rw [if_pos hneg]
  · rcases natDigs_cons i.natAbs with ⟨c, t, hct, hc⟩
    have hfacts := digitCh_head_facts hc
    refine ⟨c, t, ?_, hfacts.1, hfacts.2.1, hfacts.2.2.1, hfacts.2.2.2.1,
      hfacts.2.2.2.2.1, hfacts.2.2.2.2.2.1, hfacts.2.2.2.2.2.2.1,
      hfacts.2.2.2.2.2.2.2.1, hfacts.2.2.2.2.2.2.2.2.1, hfacts.2.2.2.2.2.2.2.2.2⟩
    unfold intDigs
    rw [if_neg hneg, hct]

theorem headOk {v : Json} {t : List Char} (c : Char) (hws : isWsCh c = false)
    (h1 : ¬c = ']') (h2 : ¬c = rbrace) (hct : dumpL v = c :: t) :
    ∃ c t, dumpL v = c :: t ∧ isWsCh c = false ∧ ¬c = ']' ∧ ¬c = rbrace :=
  ⟨c, t, hct, hws, h1, h2⟩

theorem dumpL_head (v : Json) :
    ∃ c t, dumpL v = c :: t ∧ isWsCh c = false ∧ ¬c = ']' ∧ ¬c = rbrace := by
  cases v with
  | num i =>
    rcases intDigs_head i with ⟨c, t, hct, hws, _, _, _, _, _, _, hbr, hrb, _⟩
    exact ⟨c, t, hct, hws, hbr, hrb⟩
  | null => exact headOk 'n' (by decide) (by decide) (by decide) rfl
  | bool b =>
    cases b with
    | true => exact headOk 't' (by decide) (by decide) (by decide) rfl
    | false => exact headOk 'f' (by decide) (by decide) (by decide) rfl
  | str s => exact headOk '"' (by decide) (by decide) (by decide) rfl
  | arr xs => exact headOk '[' (by decide) (by decide) (by decide) rfl
  | obj ms => exact headOk lbrace (by decide) (by decide) (by decide) rfl

theorem wsSkip_dumpL (v : Json) (X : List Char) :
    wsSkip (dumpL v ++ X) = dumpL v ++ X := by
  rcases dumpL_head v with ⟨c, t, hct, hws, _, _⟩
  rw [hct, List.cons_append, wsSkip_cons_of_neg _ hws]

theorem numBoundary_rbracket (X : List Char) : numBoundary (']' :: X) = true := rfl

theorem numBoundary_rbrace (X : List Char) : numBoundary (rbrace :: X) = true := rfl

theorem numBoundary_comma (X : List Char) : numBoundary (',' :: X) = true := rfl
theorem jsonVal_cons (f : Nat) (c : Char) (l : List Char) (hws : isWsCh c = false) :
    jsonVal (f + 1) (c :: l)
      = (if c = 'n' then
           match l with
           | 'u' :: 'l' :: 'l' :: r => some (.null, r)
           | _ => none
         else if c = 't' then
           match l with
           | 'r' :: 'u' :: 'e' :: r => some (.bool true, r)
           | _ => none
         else if c = 'f' then
           match l with
           | 'a' :: 'l' :: 's' :: 'e' :: r => some (.bool false, r)
           | _ => none
         else if c = '"' then
           match strBody (l.length + 1) [] l with
           | some (s, rest2) => some (.str s, rest2)
           | none => none
         else if c = '[' then
           match wsSkip l with
           | [] => none
           | c2 :: cs2 =>
             if c2 = ']' then some (.arr [], cs2)
             else
               match jsonItems f (c2 :: cs2) with
               | some (xs, rest2) => some (.arr xs, rest2)
               | none => none
         else if c = lbrace then
           match wsSkip l with
           | [] => none
           | c2 :: cs2 =>
             if c2 = rbrace then some (.obj [], cs2)
             else
               match jsonMembers f (c2 :: cs2) with
               | some (ms, rest2) => some (.obj ms, rest2)
               | none => none
         else
           match intParse (c :: l) with
           | some (n, rest2) => some (.num n, rest2)
           | none => none) := by
  rw [jsonVal_succ, wsSkip_cons_of_neg _ hws]

theorem rtNum (f : Nat) (i : Int) (rest : List Char)
    (hb : numBoundary rest = true) :
    jsonVal (f + 1) (dumpL (.num i) ++ rest) = some (.num i, rest) := by
  rcases intDigs_head i with ⟨c, t, hct, hws, hn, ht, hf', hq, hbrk, hbrc, _, _, _⟩
  have harg : dumpL (.num i) ++ rest = c :: (t ++ rest) := by
    show intDigs i ++ rest = _
    rw [hct]
    rfl
  rw [harg, jsonVal_cons f c _ hws, if_neg hn, if_neg ht, if_neg hf', if_neg hq,
    if_neg hbrk, if_neg hbrc,
    show c :: (t ++ rest) = intDigs i ++ rest from by rw [hct]; rfl,
    intParse_intDigs i rest hb]

theorem rtStr (f : Nat) (s : String) (rest : List Char) :
    jsonVal (f + 1) (dumpL (.str s) ++ rest) = some (.str s, rest) := by
  have harg : dumpL (.str s) ++ rest = '"' :: (escStr s.data ++ '"' :: rest) := by
    show '"' :: ((escStr s.data ++ ['"']) ++ rest) = _
    rw [List.append_assoc]
    rfl
  rw [harg, jsonVal_cons f '"' _ (by decide), if_neg (by decide), if_neg (by decide),
    if_neg (by decide), if_pos rfl,
    strBody_dumpsStr s _ rest
      (by have h1 := escStr_length_ge s.data
          simp only [List.length_append, List.length_cons]
          omega)]

theorem dumpL_length_pos (v : Json) : 1 ≤ (dumpL v).length := by
  rcases dumpL_head v with ⟨c, t, hct, _⟩
  rw [hct]
  simp

theorem dumpArr_head (y : Json) (ys : List Json) :
    ∃ c t, dumpArr (y :: ys) = c :: t ∧ isWsCh c = false ∧ ¬c = ']' ∧ ¬c = rbrace := by
  rcases dumpL_head y with ⟨c, t, hct, h1, h2, h3⟩
  cases ys with
  | nil => exact ⟨c, t, by rw [show dumpArr [y] = dumpL y from rfl, hct], h1, h2, h3⟩
  | cons z zs =>
    refine ⟨c, t ++ ',' :: ' ' :: dumpArr (z :: zs), ?_, h1, h2, h3⟩
    rw [show dumpArr (y :: z :: zs) = dumpL y ++ ',' :: ' ' :: dumpArr (z :: zs) from rfl,
      hct]
    rfl

theorem wsSkip_dumpArr (y : Json) (ys : List Json) (X : List Char) :
    wsSkip (dumpArr (y :: ys) ++ X) = dumpArr (y :: ys) ++ X := by
  rcases dumpArr_head y ys with ⟨c, t, hct, hws, _, _⟩
  rw [hct, List.cons_append, wsSkip_cons_of_neg _ hws]

theorem dumpObj_head (k : String) (v : Json) (ms : List (String × Json)) :
    ∃ t, dumpObj ((k, v) :: ms) = '"' :: t := by
  cases ms with
  | nil => exact ⟨(escStr k.data ++ ['"']) ++ ':' :: ' ' :: dumpL v, rfl⟩
  | cons m ms2 =>
    exact ⟨(escStr k.data ++ ['"'])
      ++ (':' :: ' ' :: dumpL v) ++ (',' :: ' ' :: dumpObj (m :: ms2)), rfl⟩

theorem wsSkip_dumpObj (k : String) (v : Json) (ms : List (String × Json))
    (X : List Char) :
    wsSkip (dumpObj ((k, v) :: ms) ++ X) = dumpObj ((k, v) :: ms) ++ X := by
  rcases dumpObj_head k v ms with ⟨t, hct⟩
  rw [hct, List.cons_append, wsSkip_cons_of_neg _ (by decide)]

theorem jsonMembers_step (f : Nat) (k : String) (v : Json) (tail2 : List Char)
    (hv : jsonVal f (dumpL v ++ tail2) = some (v, tail2)) :
    jsonMembers (f + 1)
        ('"' :: (escStr k.data ++ '"' :: (':' :: ' ' :: (dumpL v ++ tail2))))
      = (match wsSkip tail2 with
         | [] => none
         | c2 :: rest4 =>
           if c2 = ',' then
             match jsonMembers f (wsSkip rest4) with
             | some (ms, rest5) => some ((k, v) :: ms, rest5)
             | none => none
           else if c2 = rbrace then some ([(k, v)], rest4)
           else none) := by
  rw [jsonMembers_succ, wsSkip_cons_of_neg _ (by decide)]
  show (match strBody ((escStr k.data ++ '"' :: (':' :: ' ' :: (dumpL v ++ tail2))).length + 1)
          [] (escStr k.data ++ '"' :: (':' :: ' ' :: (dumpL v ++ tail2))) with
        | none => none
        | some (k1, rest1) =>
          match wsSkip rest1 with
          | [] => none
          | c1 :: rest2 =>
            if c1 = ':' then
              match jsonVal f (wsSkip rest2) with
              | none => none
              | some (v1, rest3) =>
                match wsSkip rest3 with
                | [] => none
                | c2 :: rest4 =>
                  if c2 = ',' then
                    match jsonMembers f (wsSkip rest4) with
                    | some (ms, rest5) => some ((k1, v1) :: ms, rest5)
                    | none => none
                  else if c2 = rbrace then some ([(k1, v1)], rest4)
                  else none
            else none) = _
  rw [strBody_dumpsStr k _ _ (by
    have h1 := escStr_length_ge k.data
    simp only [List.length_append, List.length_cons]
    omega)]
  show (match jsonVal f (wsSkip (dumpL v ++ tail2)) with
        | none => none
        | some (v1, rest3) =>
          match wsSkip rest3 with
          | [] => none
          | c2 :: rest4 =>
            if c2 = ',' then
              match jsonMembers f (wsSkip rest4) with
              | some (ms, rest5) => some ((k, v1) :: ms, rest5)
              | none => none
            else if c2 = rbrace then some ([(k, v1)], rest4)
            else none) = _
  rw [wsSkip_dumpL v tail2, hv]

mutual

theorem rtVal : ∀ (v : Json) (f : Nat) (rest : List Char),
    (dumpL v).length < f + 1 → numBoundary rest = true →
    jsonVal (f + 1) (dumpL v ++ rest) = some (v, rest)
  | .null, f, rest, _, _ => rfl
  | .bool true, f, rest, _, _ => rfl
  | .bool false, f, rest, _, _ => rfl
  | .num i, f, rest, _, hb => rtNum f i rest hb
  | .str s, f, rest, _, _ => rtStr f s rest
  | .arr [], f, rest, _, _ => rfl
  | .arr (y :: ys), f, rest, hf, _ => by
    have hlen : (dumpL (Json.arr (y :: ys))).length = (dumpArr (y :: ys)).length + 2 := by
      show ('[' :: (dumpArr (y :: ys) ++ [']'])).length = _
      simp
    have hla : 1 ≤ (dumpArr (y :: ys)).length := by
      rcases dumpArr_head y ys with ⟨c, t, hct, _⟩
      rw [hct]
      simp
    rw [hlen] at hf
    obtain ⟨f2, rfl⟩ : ∃ f2, f = f2 + 1 := ⟨f - 1, by omega⟩
    have harg : dumpL (Json.arr (y :: ys)) ++ rest
        = '[' :: (dumpArr (y :: ys) ++ ']' :: rest) := by
      show ('[' :: (dumpArr (y :: ys) ++ [']'])) ++ rest = _
      rw [List.cons_append, List.append_assoc]
      rfl
    rcases dumpArr_head y ys with ⟨c2, t2, hct2, hws2, hbrk2, _⟩
    have hwse : wsSkip (dumpArr (y :: ys) ++ ']' :: rest)
        = c2 :: (t2 ++ ']' :: rest) := by
      rw [hct2, List.cons_append, wsSkip_cons_of_neg _ hws2]
    rw [harg, jsonVal_cons (f2 + 1) '[' _ (by decide), if_neg (by decide),
      if_neg (by decide), if_neg (by decide), if_neg (by decide), if_pos rfl,
      hwse]
    show (if c2 = ']' then some (Json.arr [], t2 ++ ']' :: rest)
          else match jsonItems (f2 + 1) (c2 :: (t2 ++ ']' :: rest)) with
               | some (xs, rest2) => some (Json.arr xs, rest2)
               | none => none) = some (Json.arr (y :: ys), rest)
    rw [if_neg hbrk2,
      show c2 :: (t2 ++ ']' :: rest) = dumpArr (y :: ys) ++ ']' :: rest from by
        rw [hct2]; rfl,
      rtItems y ys f2 rest (by omega)]
  | .obj [], f, rest, _, _ => rfl
  | .obj ((k, v2) :: ms2), f, rest, hf, _ => by
    have hlen : (dumpL (Json.obj ((k, v2) :: ms2))).length
        = (dumpObj ((k, v2) :: ms2)).length + 2 := by
      show (lbrace :: (dumpObj ((k, v2) :: ms2) ++ [rbrace])).length = _
      simp
    have hlo : 1 ≤ (dumpObj ((k, v2) :: ms2)).length := by
      rcases dumpObj_head k v2 ms2 with ⟨t, hct⟩
      rw [hct]
      simp
    rw [hlen] at hf
    obtain ⟨f2, rfl⟩ : ∃ f2, f = f2 + 1 := ⟨f - 1, by omega⟩
    have harg : dumpL (Json.obj ((k, v2) :: ms2)) ++ rest
        = lbrace :: (dumpObj ((k, v2) :: ms2) ++ rbrace :: rest) := by
      show (lbrace :: (dumpObj ((k, v2) :: ms2) ++ [rbrace])) ++ rest = _
      rw [List.cons_append, List.append_assoc]
      rfl
    rcases dumpObj_head k v2 ms2 with ⟨t2, hct2⟩
    have hwse : wsSkip (dumpObj ((k, v2) :: ms2) ++ rbrace :: rest)
        = '"' :: (t2 ++ rbrace :: rest) := by
      rw [hct2, List.cons_append, wsSkip_cons_of_neg _ (by decide)]
    rw [harg, jsonVal_cons (f2 + 1) lbrace _ (by decide), if_neg (by decide),
      if_neg (by decide), if_neg (by decide), if_neg (by decide),
      if_neg (by decide), if_pos rfl, hwse]
    show (if ('"' : Char) = rbrace then some (Json.obj [], t2 ++ rbrace :: rest)
          else match jsonMembers (f2 + 1) ('"' :: (t2 ++ rbrace :: rest)) with
               | some (ms1, rest2) => some (Json.obj ms1, rest2)
               | none => none) = some (Json.obj ((k, v2) :: ms2), rest)
    rw [if_neg (by decide),
      show '"' :: (t2 ++ rbrace :: rest) = dumpObj ((k, v2) :: ms2) ++ rbrace :: rest from by
        rw [hct2]; rfl,
      rtMembers k v2 ms2 f2 rest (by omega)]
termination_by v _ _ _ _ => sizeOf v

theorem rtItems : ∀ (x : Json) (xs : List Json) (f : Nat) (rest : List Char),
    (dumpArr (x :: xs)).length + 1 < f + 1 →
    jsonItems (f + 1) (dumpArr (x :: xs) ++ ']' :: rest) = some (x :: xs, rest)
  | x, [], f, rest, hf => by
    have hAx : dumpArr [x] = dumpL x := rfl
    have hlp : 1 ≤ (dumpL x).length := dumpL_length_pos x
    rw [hAx] at hf ⊢
    obtain ⟨f2, rfl⟩ : ∃ f2, f = f2 + 1 := ⟨f - 1, by omega⟩
    rw [jsonItems_succ, rtVal x f2 (']' :: rest) (by omega) rfl]
    rfl
  | x, z :: zs, f, rest, hf => by
    have hsplit : dumpArr (x :: z :: zs)
        = dumpL x ++ (',' :: ' ' :: dumpArr (z :: zs)) := rfl
    have hlen : (dumpArr (x :: z :: zs)).length
        = (dumpL x).length + 2 + (dumpArr (z :: zs)).length := by
      rw [hsplit]
      simp only [List.length_append, List.length_cons]
      omega
    have hlp : 1 ≤ (dumpL x).length := dumpL_length_pos x
    rw [hlen] at hf
    obtain ⟨f2, rfl⟩ : ∃ f2, f = f2 + 1 := ⟨f - 1, by omega⟩
    have harg : dumpArr (x :: z :: zs) ++ ']' :: rest
        = dumpL x ++ ',' :: ' ' :: (dumpArr (z :: zs) ++ ']' :: rest) := by
      rw [hsplit, List.append_assoc]
      rfl
    rw [harg, jsonItems_succ,
      rtVal x f2 (',' :: ' ' :: (dumpArr (z :: zs) ++ ']' :: rest)) (by omega) rfl]
    show (match jsonItems (f2 + 1) (wsSkip (dumpArr (z :: zs) ++ ']' :: rest)) with
          | some (vs, rest3) => some (x :: vs, rest3)
          | none => none) = some (x :: z :: zs, rest)
    rw [wsSkip_dumpArr z zs (']' :: rest), rtItems z zs f2 rest (by omega)]
termination_by x xs _ _ _ => 1 + sizeOf x + sizeOf xs

theorem rtMembers : ∀ (k : String) (v : Json) (ms : List (String × Json))
    (f : Nat) (rest : List Char),
    (dumpObj ((k, v) :: ms)).length + 1 < f + 1 →
    jsonMembers (f + 1) (dumpObj ((k, v) :: ms) ++ rbrace :: rest)
      = some ((k, v) :: ms, rest)
  | k, v, [], f, rest, hf => by
    have hlen : (dumpObj [(k, v)]).length
        = (escStr k.data).length + 4 + (dumpL v).length := by
      rw [show dumpObj [(k, v)] = dumpStrL k ++ (':' :: ' ' :: dumpL v) from rfl]
      simp only [dumpStrL, List.length_append, List.length_cons, List.length_nil]
      omega
    rw [hlen] at hf
    obtain ⟨f2, rfl⟩ : ∃ f2, f = f2 + 1 := ⟨f - 1, by omega⟩
    have harg : dumpObj [(k, v)] ++ rbrace :: rest
        = '"' :: (escStr k.data ++ '"' :: (':' :: ' ' :: (dumpL v ++ rbrace :: rest))) := by
      rw [show dumpObj [(k, v)] = dumpStrL k ++ (':' :: ' ' :: dumpL v) from rfl]
      simp [dumpStrL, List.append_assoc]
    rw [harg, jsonMembers_step (f2 + 1) k v (rbrace :: rest)
      (rtVal v f2 (rbrace :: rest) (by omega) rfl)]
    rfl
  | k, v, (k2, v2) :: ms2, f, rest, hf => by
    have hsplit : dumpObj ((k, v) :: (k2, v2) :: ms2)
        = dumpStrL k ++ (':' :: ' ' :: dumpL v) ++ (',' :: ' ' :: dumpObj ((k2, v2) :: ms2)) := rfl
    have hlen : (dumpObj ((k, v) :: (k2, v2) :: ms2)).length
        = (escStr k.data).length + 6 + (dumpL v).length
          + (dumpObj ((k2, v2) :: ms2)).length := by
      rw [hsplit]
      simp only [dumpStrL, List.length_append, List.length_cons, List.length_nil]
      omega
    have hlp : 1 ≤ (dumpL v).length := dumpL_length_pos v
    rw [hlen] at hf
    obtain ⟨f2, rfl⟩ : ∃ f2, f = f2 + 1 := ⟨f - 1, by omega⟩
    have harg : dumpObj ((k, v) :: (k2, v2) :: ms2) ++ rbrace :: rest
        = '"' :: (escStr k.data ++ '"' :: (':' :: ' ' :: (dumpL v
            ++ ',' :: ' ' :: (dumpObj ((k2, v2) :: ms2) ++ rbrace :: rest)))) := by
      rw [hsplit]
      simp [dumpStrL, List.append_assoc]
    rw [harg, jsonMembers_step (f2 + 1) k v
      (',' :: ' ' :: (dumpObj ((k2, v2) :: ms2) ++ rbrace :: rest))
      (rtVal v f2 _ (by omega) rfl)]
    show (match jsonMembers (f2 + 1) (wsSkip (dumpObj ((k2, v2) :: ms2) ++ rbrace :: rest)) with
          | some (ms1, rest5) => some ((k, v) :: ms1, rest5)
          | none => none) = some ((k, v) :: (k2, v2) :: ms2, rest)
    rw [wsSkip_dumpObj k2 v2 ms2 (rbrace :: rest), rtMembers k2 v2 ms2 f2 rest (by omega)]
termination_by k v ms _ _ _ => 2 + sizeOf k + sizeOf v + sizeOf ms

end

/-- `json.loads` inverts `json.dumps` on every modelled value: the payload
codec of `send_signal` / `get_signals` is lossless. -/
theorem loads_dumps : ∀ v : Json, loads (dumps v) = some v := by
  intro v
  have h := rtVal v (dumpL v).length [] (by omega) rfl
  rw [List.append_nil] at h
  show (match jsonVal ((dumpL v).length + 1) (dumpL v) with
        | some (v1, rest) => if (wsSkip rest).isEmpty then some v1 else none
        | none => none) = some v
  rw [h]
  rfl

/-- C9: the mailbox round-trips payloads losslessly: `json.loads` inverts
`json.dumps` on every JSON-equivalent value, and end to end, a `Send` whose
payload is `v` is delivered by the `Fetch` that returns it as a message whose
payload is structurally equal to `v`. -/
theorem c9_payload_round_trip (R D : String) (db : DB) (q : SendReq)
    (hD : D ≠ "") (hok : okReq q = true)
    (hemp : db.signals.filter (matchesTo R D) = []) :
    (∀ v : Json, loads (dumps v) = some v)
    ∧ (get_signals R (some D) (send_signal R (sendBody D q) q.now q.draw db).2).1
        = FetchResult.ok [Msg.mk q.fromD q.ty (some q.payload)] := by
  refine ⟨loads_dumps, ?_⟩
  rcases send_step R D q db hok with ⟨p, hsig, _, _, _⟩
  have hm : matchesTo R D (sentRow R D db.nextSignalId q) = true := by
    show (R == R && jeq (Json.str D) (Json.str D)) = true
    simp [jeq_refl]
  have hfil : ((send_signal R (sendBody D q) q.now q.draw db).2).signals.filter
      (matchesTo R D) = [sentRow R D db.nextSignalId q] := by
    rw [hsig, List.filter_append, filter_sub_no_match R D p hemp, List.nil_append]
    simp [hm]
  have hd' : (D == "") = false := by simpa using hD
  simp only [get_signals, hd', Bool.false_eq_true, if_false, hfil]
  show FetchResult.ok ((orderByCreatedAt [sentRow R D db.nextSignalId q]).map
      (fun s => Msg.mk s.from_device s.type (loads s.payload)))
    = FetchResult.ok [Msg.mk q.fromD q.ty (some q.payload)]
  rw [show orderByCreatedAt [sentRow R D db.nextSignalId q]
      = [sentRow R D db.nextSignalId q] from rfl]
  simp only [List.map_cons, List.map_nil]
  rw [show (sentRow R D db.nextSignalId q).from_device = q.fromD from rfl,
    show (sentRow R D db.nextSignalId q).type = q.ty from rfl,
    show (sentRow R D db.nextSignalId q).payload = dumps q.payload from rfl,
    loads_dumps q.payload]

/-- The payload the C9 witness sends: an object exercising every `Json`
constructor (string with a non-ASCII character, negative number, booleans,
null, nested array and empty object). -/
def exC9Payload : Json :=
  .obj [("sdp", .str "v=0 é"), ("n", .num (-42)),
        ("flags", .arr [.bool true, .bool false, .null, .num 7]),
        ("inner", .obj [])]

/-- The send request of the C9 witness. -/
def exC9Req : SendReq := SendReq.mk (.str "H") (.str "offer") exC9Payload 100 1

/-- Witness for C9: a concrete send-then-fetch on a fresh store delivers the
payload back structurally intact. -/
theorem c9_payload_round_trip_witness :
    (("P" : String) ≠ "" ∧ okReq exC9Req = true
      ∧ initDB.signals.filter (matchesTo "100000" "P") = [])
    ∧ ((∀ v : Json, loads (dumps v) = some v)
      ∧ (get_signals "100000" (some "P")
          (send_signal "100000" (sendBody "P" exC9Req) exC9Req.now exC9Req.draw initDB).2).1
        = FetchResult.ok [Msg.mk exC9Req.fromD exC9Req.ty (some exC9Req.payload)]) :=
  ⟨⟨by decide, by decide, rfl⟩,
   c9_payload_round_trip "100000" "P" initDB exC9Req (by decide) (by decide) rfl⟩
